import Mathlib

/-!
Verification of the infernofspatcher core against its specification.

The C++ sources under src/infernofspatcher/src are shallowly embedded:
machine integers become Nat with explicit truncation where overflow
matters, streams become an explicit (byte list, position) state, and
fallible operations return Except.  Definitions mirror the source
functions of the same names.
-/

namespace Inferno

/-- Error kinds raised by the core, following section 7 of the spec.
The C++ code throws std::runtime_error / std::out_of_range /
std::invalid_argument; the spec groups those sites into these kinds. -/
inductive Err where
  | ioError
  | outOfRange
  | formatError
  | notFound
  | notSupported
  | invalidOperand
  deriving DecidableEq, Repr

/-! ## bit.hpp -/

/-- Embedding of make_bit_mask from bit.hpp: a mask of `length` one bits
starting at bit `start`. -/
def make_bit_mask (start length : Nat) : Nat :=
  ((1 <<< length) - 1) <<< start

/-- Embedding of bit_test from bit.hpp. -/
def bit_test (val i : Nat) : Bool :=
  val &&& make_bit_mask i 1 != 0

/-- Embedding of bit_extract from bit.hpp. -/
def bit_extract (val start length : Nat) : Nat :=
  (val &&& make_bit_mask start length) >>> start

/-- Embedding of sign_extend from bit.hpp, instantiated at a bit width
(the C++ template parameter T contributes only sizeof(T)*8). -/
def sign_extend (width val i : Nat) : Nat :=
  if bit_test val i then val ||| make_bit_mask i (width - i) else val

theorem make_bit_mask_eq (s l : Nat) : make_bit_mask s l = (2 ^ l - 1) * 2 ^ s := by
  simp [make_bit_mask, Nat.shiftLeft_eq]

theorem testBit_make_bit_mask (s l j : Nat) :
    (make_bit_mask s l).testBit j = (decide (s ≤ j) && decide (j < s + l)) := by
  simp only [make_bit_mask, Nat.one_shiftLeft, Nat.testBit_shiftLeft,
    Nat.testBit_two_pow_sub_one]
  by_cases h1 : s ≤ j
  · simp only [h1]
    congr 1
    rw [decide_eq_decide]
    omega
  · simp [h1]

theorem bit_test_eq_testBit (w i : Nat) : bit_test w i = w.testBit i := by
  have hmask : make_bit_mask i 1 = 2 ^ i := by
    simp [make_bit_mask_eq]
  rw [bit_test, hmask, Nat.and_two_pow]
  cases h : w.testBit i <;> simp [h, Nat.pos_iff_ne_zero, pow_ne_zero]

theorem bit_extract_eq_div_mod (w s l : Nat) : bit_extract w s l = w / 2 ^ s % 2 ^ l := by
  apply Nat.eq_of_testBit_eq
  intro j
  rw [bit_extract, Nat.testBit_shiftRight, Nat.testBit_and, testBit_make_bit_mask,
    ← Nat.shiftRight_eq_div_pow, Nat.testBit_mod_two_pow, Nat.testBit_shiftRight]
  cases hb : w.testBit (s + j) <;> by_cases hj : j < l <;> simp [hb, hj]

theorem bit_extract_zero_eq_mod (w l : Nat) : bit_extract w 0 l = w % 2 ^ l := by
  simp [bit_extract_eq_div_mod]

/-! ## analyser.hpp: read_ptr_at

The overload of CacheAnalyser::read_ptr_at that interprets the u64 fixup
word already fetched from the stream.  `main_cache_base` is the Main
member's cache_base field, `image_base` the base passed by the caller.
Both std::runtime_error throw sites are NotSupported per the spec's
error taxonomy (section 7). -/

def read_ptr_at (main_cache_base image_base fixup : Nat) : Except Err Nat := do
  let val ←
    if bit_test fixup 63 then
      if bit_test fixup 62 then
        Except.error Err.notSupported
      else if bit_extract fixup 32 19 = 0 then
        Except.error Err.notSupported
      else
        Except.ok (bit_extract fixup 0 32)
    else
      Except.ok (bit_extract fixup 0 36)
  return if val > image_base then val else val + main_cache_base

/-- C2: read_ptr_at on a 64-bit fixup word w with image base B: bit 63
clear yields bits [0..36); bits 63 and 62 both set raises NotSupported;
bit 63 set, bit 62 clear with bits [32..51) all zero raises NotSupported;
otherwise (authenticated rebase) yields bits [0..32).  Every non-raising
case returns the extracted value V if V > B, else V plus the Main cache
base. -/
theorem C2_read_ptr_at_fixup_kinds (cb B w : Nat) :
    (w.testBit 63 = false →
      read_ptr_at cb B w =
        Except.ok (if w % 2 ^ 36 > B then w % 2 ^ 36 else w % 2 ^ 36 + cb)) ∧
    (w.testBit 63 = true → w.testBit 62 = true →
      read_ptr_at cb B w = Except.error Err.notSupported) ∧
    (w.testBit 63 = true → w.testBit 62 = false → w / 2 ^ 32 % 2 ^ 19 = 0 →
      read_ptr_at cb B w = Except.error Err.notSupported) ∧
    (w.testBit 63 = true → w.testBit 62 = false → w / 2 ^ 32 % 2 ^ 19 ≠ 0 →
      read_ptr_at cb B w =
        Except.ok (if w % 2 ^ 32 > B then w % 2 ^ 32 else w % 2 ^ 32 + cb)) := by
  refine ⟨fun h63 => ?_, fun h63 h62 => ?_, fun h63 h62 hz => ?_, fun h63 h62 hz => ?_⟩ <;>
    simp [read_ptr_at, bit_test_eq_testBit, bit_extract_eq_div_mod, bit_extract_zero_eq_mod,
      h63, *] <;>
    omega

/-- Witness for C2 at the spec's S6 scenario words: an auth bind word
(bits 63 and 62), a plain bind word 0x8000000000001234, an auth rebase
word 0x8001000000001234 and a plain rebase word 0x1234, with image base
0x200000000 and Main cache base 0x180000000. -/
theorem C2_read_ptr_at_fixup_kinds_witness :
    read_ptr_at 0x180000000 0x200000000 0xC000000000001234 = Except.error Err.notSupported ∧
    read_ptr_at 0x180000000 0x200000000 0x8000000000001234 = Except.error Err.notSupported ∧
    read_ptr_at 0x180000000 0x200000000 0x8001000000001234 = Except.ok 0x180001234 ∧
    read_ptr_at 0x180000000 0x200000000 0x1234 = Except.ok 0x180001234 := by
  refine ⟨?_, ?_, ?_, ?_⟩
  · exact (C2_read_ptr_at_fixup_kinds 0x180000000 0x200000000
      0xC000000000001234).2.1 (by decide) (by decide)
  · exact (C2_read_ptr_at_fixup_kinds 0x180000000 0x200000000
      0x8000000000001234).2.2.1 (by decide) (by decide) (by decide)
  · have h := (C2_read_ptr_at_fixup_kinds 0x180000000 0x200000000
      0x8001000000001234).2.2.2 (by decide) (by decide) (by decide)
    rw [h]
    norm_num
  · have h := (C2_read_ptr_at_fixup_kinds 0x180000000 0x200000000 0x1234).1 (by decide)
    rw [h]
    norm_num

/-! ## patcher.hpp: data model

Files are byte lists; the filesystem is an association list from path to
file node.  A cache file is binary, the sidecar produced by flush is
text.  FsOp records the file-open / create / remove operations flush and
revert perform, in order, so frame conditions can be stated. -/

abbrev Bytes := List Nat

/-- Overwrite of the byte range starting at `off` with `bs`.  This is the
effect of seekp + write on an open fstream when the range lies inside the
file (the only case the flush loop can reach, since it first reads the
same range). -/
def writeBytes (f : Bytes) (off : Nat) (bs : Bytes) : Bytes :=
  f.take off ++ bs ++ f.drop (off + bs.length)

/-- Read of `len` bytes starting at `off` (clamped at end of file). -/
def readBytes (f : Bytes) (off len : Nat) : Bytes :=
  (f.drop off).take len

/-- Embedding of read_stream from parse.hpp specialised to a byte range:
a short read throws OutOfRange. -/
def readBytesE (f : Bytes) (off len : Nat) : Except Err Bytes :=
  if off + len ≤ f.length then Except.ok (readBytes f off len) else Except.error Err.outOfRange

/-- Write of one byte at an absolute position, the effect of a single
`file.write` of the revert loop at the current put cursor.  Past the end
the file grows (the gap, never exercised here, is zero filled). -/
def writeByteAt (f : Bytes) (pos b : Nat) : Bytes :=
  if pos < f.length then f.take pos ++ [b] ++ f.drop (pos + 1)
  else f ++ List.replicate (pos - f.length) 0 ++ [b]

/-- One per-path staged map, mirroring
std::map of streamoff to byte vector: kept sorted by offset. -/
abbrev WriteMap := List (Nat × Bytes)

/-- Embedding of std::map::emplace on the per-path map of Patcher::write:
inserts in key order, and when the key is already present the map is
left unchanged (emplace never overwrites). -/
def map_emplace : WriteMap → Nat → Bytes → WriteMap
  | [], k, v => [(k, v)]
  | (k0, v0) :: rest, k, v =>
    if k < k0 then (k, v) :: (k0, v0) :: rest
    else if k = k0 then (k0, v0) :: rest
    else (k0, v0) :: map_emplace rest k v

/-- Embedding of the Patcher class state: the write_queue
(std::unordered_map keyed by path, modelled in insertion order). -/
structure Patcher where
  write_queue : List (String × WriteMap)
  deriving DecidableEq

/-- Embedding of the default Patcher constructor: an empty queue. -/
def Patcher.init : Patcher := { write_queue := [] }

def queue_write : List (String × WriteMap) → String → Nat → Bytes → List (String × WriteMap)
  | [], path, off, bs => [(path, map_emplace [] off bs)]
  | (p0, m0) :: rest, path, off, bs =>
    if p0 = path then (p0, map_emplace m0 off bs) :: rest
    else (p0, m0) :: queue_write rest path off bs

/-- Embedding of Patcher::write (try_emplace of the path, then emplace of
the offset entry). -/
def Patcher.write (p : Patcher) (path : String) (off : Nat) (bs : Bytes) : Patcher :=
  { write_queue := queue_write p.write_queue path off bs }

/-- File node of the filesystem model. -/
inductive FNode where
  | bin (content : Bytes)
  | txt (content : List Char)
  deriving DecidableEq

abbrev FS := List (String × FNode)

def fsGet : FS → String → Option FNode
  | [], _ => none
  | (p, n) :: rest, path => if p = path then some n else fsGet rest path

def fsSet : FS → String → FNode → FS
  | [], path, node => [(path, node)]
  | (p, n) :: rest, path, node =>
    if p = path then (p, node) :: rest else (p, n) :: fsSet rest path node

def fsRemove : FS → String → FS
  | [], _ => []
  | (p, n) :: rest, path => if p = path then fsRemove rest path else (p, n) :: fsRemove rest path

/-- Filesystem operations performed by flush and revert, for frame
conditions: opening a file read+write, creating or truncating a file,
and removing a file. -/
inductive FsOp where
  | openRW (path : String)
  | createTrunc (path : String)
  | removeFile (path : String)
  deriving DecidableEq

/-- Embedding of ORIG_BYTE_FILE_EXT suffixing. -/
def orig_bytes_path (path : String) : String :=
  path ++ ".InfernoOriginalBytes"

/-! ## patcher.hpp: sidecar text

flush prints each displaced byte run as a line
`off: b0 b1 ... bn-1 \n` with hexadecimal integers (std::hex on the
stream; note the space emitted after every byte, the last included). -/

/-- Hex digit characters, lowercase as operator<< produces them. -/
def hexDigitChar (n : Nat) : Char :=
  if n < 10 then Char.ofNat (48 + n) else Char.ofNat (87 + n)

/-- Hex digits of n, most significant first; structural fuel recursion,
exact whenever n < 16 ^ fuel. -/
def hexChars : Nat → Nat → List Char
  | 0, _ => []
  | fuel + 1, n =>
    if n < 16 then [hexDigitChar n] else hexChars fuel (n / 16) ++ [hexDigitChar (n % 16)]

/-- Rendering of a nonnegative integer by operator<< under std::hex. -/
def hexStr (n : Nat) : List Char :=
  hexChars (n + 1) n

/-- One sidecar line, exactly as the flush loop prints it:
`off` then ": " then every displaced byte followed by one space, then a
newline. -/
def renderLine (off : Nat) (bytes : Bytes) : List Char :=
  hexStr off ++ [':', ' '] ++ bytes.foldr (fun b acc => hexStr b ++ [' '] ++ acc) ['\n']

/-- Whole sidecar content for one cache file. -/
def renderSidecar (entries : WriteMap) : List Char :=
  entries.foldr (fun e acc => renderLine e.1 e.2 ++ acc) []

/-! ## patcher.hpp: flush -/

/-- Inner loop of Patcher::flush over one path's entries (ascending
offset order): read the displaced bytes, overwrite with the staged
bytes, collect the displaced bytes for the sidecar. -/
def flushEntries : Bytes → WriteMap → Except Err (Bytes × WriteMap)
  | c, [] => Except.ok (c, [])
  | c, (off, bs) :: rest => do
    let orig ← readBytesE c off bs.length
    let c1 := writeBytes c off bs
    let (c2, side) ← flushEntries c1 rest
    return (c2, (off, orig) :: side)

/-- Outer loop of Patcher::flush over the write_queue: per path, open
the cache file read+write, create/truncate the sidecar, run the entry
loop, store the sidecar text. -/
def flushQueue : FS → List (String × WriteMap) → Except Err (FS × List FsOp)
  | fs, [] => Except.ok (fs, [])
  | fs, (path, entries) :: rest => do
    let c ←
      match fsGet fs path with
      | some (FNode.bin c) => Except.ok c
      | _ => Except.error Err.ioError
    let (c2, side) ← flushEntries c entries
    let fs1 := fsSet fs path (FNode.bin c2)
    let fs2 := fsSet fs1 (orig_bytes_path path) (FNode.txt (renderSidecar side))
    let (fs3, ops) ← flushQueue fs2 rest
    return (fs3, FsOp.openRW path :: FsOp.createTrunc (orig_bytes_path path) :: ops)

/-- Embedding of Patcher::flush.  flush is const: it does not clear the
write_queue. -/
def Patcher.flush (p : Patcher) (fs : FS) : Except Err (FS × List FsOp) :=
  flushQueue fs p.write_queue

/-! ## patcher.hpp: revert -/

/-- Whitespace as operator>> skips it. -/
def isWs (c : Char) : Bool :=
  c = ' ' || c = '\n' || c = '\t' || c = '\r'

def tokenizeAux : List Char → List Char → List (List Char)
  | [], acc => if acc.isEmpty then [] else [acc.reverse]
  | c :: rest, acc =>
    if isWs c then
      if acc.isEmpty then tokenizeAux rest [] else acc.reverse :: tokenizeAux rest []
    else tokenizeAux rest (c :: acc)

/-- Token stream of `operator>>` into a std::string: maximal runs of
non-whitespace characters. -/
def tokenize (text : List Char) : List (List Char) :=
  tokenizeAux text []

def hexVal (c : Char) : Option Nat :=
  if 48 ≤ c.toNat ∧ c.toNat ≤ 57 then some (c.toNat - 48)
  else if 97 ≤ c.toNat ∧ c.toNat ≤ 102 then some (c.toNat - 87)
  else if 65 ≤ c.toNat ∧ c.toNat ≤ 70 then some (c.toNat - 55)
  else none

def parseHexAux : List Char → Nat → Option Nat
  | [], acc => some acc
  | c :: rest, acc =>
    match hexVal c with
    | some v => parseHexAux rest (acc * 16 + v)
    | none => none

/-- Hexadecimal string parse as std::stoi / std::stoll with base 16 use
it on the sidecar tokens (which carry no sign and no trailing garbage). -/
def parseHex : List Char → Option Nat
  | [] => none
  | l => parseHexAux l 0

/-- Token loop of Patcher::revert: a token ending in a colon seeks the
put cursor to that hexadecimal offset; any other token is one displaced
byte (FormatError above 0xFF) written at the cursor, which advances. -/
def revertTokens : List (List Char) → Bytes → Nat → Except Err Bytes
  | [], c, _ => Except.ok c
  | tok :: rest, c, cursor =>
    if tok.getLast? = some ':' then
      match parseHex tok.dropLast with
      | some off => revertTokens rest c off
      | none => Except.error Err.formatError
    else
      match parseHex tok with
      | some v =>
        if v ≤ 0xFF then revertTokens rest (writeByteAt c cursor v) (cursor + 1)
        else Except.error Err.formatError
      | none => Except.error Err.formatError

/-- Embedding of Patcher::revert: no sidecar means success without any
filesystem operation; otherwise the sidecar tokens are replayed onto the
cache file and the sidecar is removed. -/
def Patcher.revert (path : String) (fs : FS) : Except Err (FS × List FsOp) :=
  match fsGet fs (orig_bytes_path path) with
  | none => Except.ok (fs, [])
  | some (FNode.bin _) => Except.error Err.ioError
  | some (FNode.txt text) =>
    match fsGet fs path with
    | some (FNode.bin c) => do
      let c2 ← revertTokens (tokenize text) c 0
      Except.ok (fsRemove (fsSet fs path (FNode.bin c2)) (orig_bytes_path path),
        [FsOp.openRW path, FsOp.removeFile (orig_bytes_path path)])
    | _ => Except.error Err.ioError

/-! ## C9: flush with an empty staging buffer -/

/-- C9: committing with an empty staging buffer performs no filesystem
operation at all: no target file is opened, no sidecar is created or
truncated, and the filesystem is returned unchanged. -/
theorem C9_flush_empty_queue_no_fs_ops (fs : FS) :
    Patcher.init.flush fs = Except.ok (fs, []) := rfl

/-! ## C5: two writes staged at the same (path, offset) key -/

/-- C5 counterexample: staging 0x11 then 0x22 at the same (path, offset)
key and committing leaves the file holding 0x11, the EARLIER write's
byte, because std::map::emplace does not overwrite an existing key; the
claim says the committed content is the later write's bytes, 0x22. -/
theorem C5_later_write_wins_counterexample :
    (((Patcher.init.write "C" 0 [0x11]).write "C" 0 [0x22]).flush [("C", FNode.bin [0xAA])]
        |>.map (fun r => fsGet r.1 "C")) = Except.ok (some (FNode.bin [0x11])) ∧
    [(0x11 : Nat)] ≠ [0x22] := by
  constructor
  · rfl
  · decide

theorem map_emplace_idem (m : WriteMap) (off : Nat) (bs1 bs2 : Bytes) :
    map_emplace (map_emplace m off bs1) off bs2 = map_emplace m off bs1 := by
  induction m with
  | nil =>
    simp [map_emplace]
  | cons e es ihm =>
    rcases e with ⟨k0, v0⟩
    simp only [map_emplace]
    rcases Nat.lt_trichotomy off k0 with h | h | h
    · rw [if_pos h]
      simp [map_emplace]
    · rw [if_neg (by omega), if_pos h]
      simp only [map_emplace]
      rw [if_neg (by omega), if_pos h]
    · rw [if_neg (by omega), if_neg (by omega)]
      simp only [map_emplace]
      rw [if_neg (by omega), if_neg (by omega), ihm]

theorem queue_write_idem (q : List (String × WriteMap)) (path : String) (off : Nat)
    (bs1 bs2 : Bytes) :
    queue_write (queue_write q path off bs1) path off bs2 = queue_write q path off bs1 := by
  induction q with
  | nil =>
    simp [queue_write, map_emplace_idem]
  | cons hd tl ih =>
    rcases hd with ⟨p0, m0⟩
    by_cases hp : p0 = path
    · simp [queue_write, hp, map_emplace_idem]
    · simp [queue_write, hp, ih]

/-- C5 as amended: when two writes are staged at the same (path, offset)
key, the earlier write's bytes are kept and the later write leaves the
staged queue completely unchanged, so the committed content at that
offset is the earlier write's bytes. -/
theorem C5_earlier_write_wins (p : Patcher) (path : String) (off : Nat) (bs1 bs2 : Bytes) :
    ((p.write path off bs1).write path off bs2) = p.write path off bs1 := by
  rcases p with ⟨q⟩
  simp only [Patcher.write, Patcher.mk.injEq]
  exact queue_write_idem q path off bs1 bs2

/-! ## C7: the 16-byte scenario of spec S5 -/

/-- C7 counterexample: on the all-0xAA 16-byte file, staging the write
at offset 4 of the four bytes 1F 20 03 D5 and committing produces a
sidecar whose entire content is the line with a space after EVERY byte,
the last included (the flush loop prints `byte << " "` for each byte):
`4: aa aa aa aa \n`, not the claimed `4: aa aa aa aa\n`. -/
theorem C7_sidecar_exact_content_counterexample :
    ((Patcher.init.write "C" 4 [0x1F, 0x20, 0x03, 0xD5]).flush
        [("C", FNode.bin (List.replicate 16 0xAA))]
      |>.map (fun r => fsGet r.1 (orig_bytes_path "C"))) =
      Except.ok (some (FNode.txt ("4: aa aa aa aa \n".data))) ∧
    ("4: aa aa aa aa \n".data) ≠ ("4: aa aa aa aa\n".data) := by
  exact ⟨rfl, by decide⟩

/-- C7 as amended: same scenario, with the sidecar content carrying the
trailing space the code actually prints: after commit the sidecar holds
exactly `4: aa aa aa aa \n` (a space after every byte), and a subsequent
revert restores the file to all 0xAA and removes the sidecar. -/
theorem C7_patch_revert_cycle :
    ((Patcher.init.write "C" 4 [0x1F, 0x20, 0x03, 0xD5]).flush
        [("C", FNode.bin (List.replicate 16 0xAA))]
      |>.map (fun r => fsGet r.1 (orig_bytes_path "C"))) =
      Except.ok (some (FNode.txt ("4: aa aa aa aa \n".data))) ∧
    (((Patcher.init.write "C" 4 [0x1F, 0x20, 0x03, 0xD5]).flush
        [("C", FNode.bin (List.replicate 16 0xAA))]).bind
      (fun r => Patcher.revert "C" r.1)) =
      Except.ok ([("C", FNode.bin (List.replicate 16 0xAA))],
        [FsOp.openRW "C", FsOp.removeFile (orig_bytes_path "C")]) := by
  exact ⟨rfl, rfl⟩

/-! ## C1: commit and revert round trip -/

/-- C1 counterexample: the round trip fails when staged byte ranges
overlap.  On the all-0xAA 16-byte file, staging eight 0x11 bytes at
offset 4 and eight 0x22 bytes at offset 8 and committing records, for
the second entry, bytes already clobbered by the first entry; the
forward replay of revert then leaves bytes 8..11 equal to 0x11 instead
of 0xAA, so the content is not byte-identical to the pre-commit state. -/
theorem C1_revert_roundtrip_counterexample :
    ((((Patcher.init.write "C" 4 (List.replicate 8 0x11)).write "C" 8
          (List.replicate 8 0x22)).flush
        [("C", FNode.bin (List.replicate 16 0xAA))]).bind
      (fun r => Patcher.revert "C" r.1)
      |>.map (fun r => fsGet r.1 "C")) =
      Except.ok (some (FNode.bin
        (List.replicate 8 0xAA ++ List.replicate 4 0x11 ++ List.replicate 4 0xAA))) ∧
    (List.replicate 8 0xAA ++ List.replicate 4 0x11 ++ List.replicate 4 0xAA : Bytes) ≠
      List.replicate 16 0xAA := by
  exact ⟨rfl, by decide⟩

/-! ## C1 general development: pointwise facts about byte-range writes -/

theorem length_writeBytes (f : Bytes) (off : Nat) (bs : Bytes)
    (h : off + bs.length ≤ f.length) :
    (writeBytes f off bs).length = f.length := by
  simp only [writeBytes, List.length_append, List.length_take, List.length_drop]
  omega

theorem length_readBytes (f : Bytes) (off len : Nat) (h : off + len ≤ f.length) :
    (readBytes f off len).length = len := by
  simp only [readBytes, List.length_take, List.length_drop]
  omega

theorem getElem?_readBytes (f : Bytes) (off len i : Nat) :
    (readBytes f off len)[i]? = if i < len then f[off + i]? else none := by
  by_cases h : i < len
  · rw [readBytes, List.getElem?_take_of_lt h, List.getElem?_drop, if_pos h]
  · rw [if_neg h, List.getElem?_eq_none]
    simp only [readBytes, List.length_take, List.length_drop]
    omega

theorem getElem?_writeBytes (f : Bytes) (off : Nat) (bs : Bytes) (i : Nat)
    (h : off + bs.length ≤ f.length) :
    (writeBytes f off bs)[i]? =
      if i < off then f[i]? else if i < off + bs.length then bs[i - off]? else f[i]? := by
  have htk : (f.take off).length = off := by
    simp only [List.length_take]
    omega
  have hab : (f.take off ++ bs).length = off + bs.length := by
    simp only [List.length_append, htk]
  rcases Nat.lt_or_ge i off with h1 | h1
  · rw [if_pos h1, writeBytes, List.getElem?_append_left (by omega),
      List.getElem?_append_left (by omega), List.getElem?_take_of_lt h1]
  · rw [if_neg (by omega)]
    rcases Nat.lt_or_ge i (off + bs.length) with h2 | h2
    · rw [if_pos h2, writeBytes, List.getElem?_append_left (by omega),
        List.getElem?_append_right (by omega), htk]
    · rw [if_neg (by omega), writeBytes, List.getElem?_append_right (by omega), hab,
        List.getElem?_drop]
      congr 1
      omega

/-- Restoring the displaced bytes after a write recovers the file. -/
theorem writeBytes_restore (f : Bytes) (off : Nat) (bs : Bytes)
    (h : off + bs.length ≤ f.length) :
    writeBytes (writeBytes f off bs) off (readBytes f off bs.length) = f := by
  have hlr : (readBytes f off bs.length).length = bs.length := length_readBytes f off _ h
  have hlw : (writeBytes f off bs).length = f.length := length_writeBytes f off bs h
  apply List.ext_getElem?
  intro i
  rw [getElem?_writeBytes _ _ _ _ (by omega)]
  rcases Nat.lt_or_ge i off with h1 | h1
  · rw [if_pos h1, getElem?_writeBytes _ _ _ _ h, if_pos h1]
  · rw [if_neg (by omega)]
    rcases Nat.lt_or_ge i (off + bs.length) with h2 | h2
    · rw [if_pos (by omega), getElem?_readBytes]
      rw [if_pos (by omega)]
      congr 1
      omega
    · rw [if_neg (by omega), getElem?_writeBytes _ _ _ _ h, if_neg (by omega),
        if_neg (by omega)]

/-- Reading a range disjoint from (and after) a written range sees the
original bytes. -/
theorem readBytes_writeBytes_disjoint (f : Bytes) (off1 : Nat) (bs : Bytes)
    (off2 len : Nat) (hd : off1 + bs.length ≤ off2) (h : off1 + bs.length ≤ f.length) :
    readBytes (writeBytes f off1 bs) off2 len = readBytes f off2 len := by
  apply List.ext_getElem?
  intro i
  rw [getElem?_readBytes, getElem?_readBytes]
  by_cases hi : i < len
  · rw [if_pos hi, if_pos hi, getElem?_writeBytes _ _ _ _ h, if_neg (by omega),
      if_neg (by omega)]
  · rw [if_neg hi, if_neg hi]

/-! ## C1 general development: hex rendering round trip -/

theorem hexVal_hexDigitChar (d : Nat) (h : d < 16) : hexVal (hexDigitChar d) = some d := by
  interval_cases d <;> decide

theorem hexChars_shape (fuel n : Nat) (h : 0 < fuel) :
    ∃ l d, hexChars fuel n = l ++ [hexDigitChar d] ∧ d < 16 := by
  induction fuel generalizing n with
  | zero => omega
  | succ fuel _ =>
    rw [hexChars]
    by_cases h16 : n < 16
    · exact ⟨[], n, by rw [if_pos h16, List.nil_append], h16⟩
    · exact ⟨hexChars fuel (n / 16), n % 16, by rw [if_neg h16], Nat.mod_lt _ (by omega)⟩

theorem hexChars_mem_isHexDigit (fuel n : Nat) (c : Char) (hc : c ∈ hexChars fuel n) :
    ∃ d, d < 16 ∧ c = hexDigitChar d := by
  induction fuel generalizing n with
  | zero => simp [hexChars] at hc
  | succ fuel ih =>
    rw [hexChars] at hc
    by_cases h16 : n < 16
    · rw [if_pos h16] at hc
      simp only [List.mem_singleton] at hc
      exact ⟨n, h16, hc⟩
    · rw [if_neg h16] at hc
      rcases List.mem_append.mp hc with h | h
      · exact ih _ h
      · simp only [List.mem_singleton] at h
        exact ⟨n % 16, Nat.mod_lt _ (by omega), h⟩

theorem isWs_hexDigitChar (d : Nat) (h : d < 16) : isWs (hexDigitChar d) = false := by
  interval_cases d <;> decide

theorem parseHexAux_append (l1 l2 : List Char) (acc : Nat) :
    parseHexAux (l1 ++ l2) acc =
      match parseHexAux l1 acc with
      | some a => parseHexAux l2 a
      | none => none := by
  induction l1 generalizing acc with
  | nil => rfl
  | cons c rest ih =>
    rw [List.cons_append, parseHexAux, parseHexAux]
    rcases hv : hexVal c with _ | v
    · rfl
    · exact ih _

theorem parseHexAux_hexChars (fuel n acc : Nat) (h : n < 16 ^ fuel) :
    parseHexAux (hexChars fuel n) acc =
      some (acc * 16 ^ (hexChars fuel n).length + n) := by
  induction fuel generalizing n acc with
  | zero =>
    have hn : n = 0 := by simpa using h
    subst hn
    simp [hexChars, parseHexAux]
  | succ fuel ih =>
    rw [hexChars]
    by_cases h16 : n < 16
    · rw [if_pos h16]
      simp only [parseHexAux, hexVal_hexDigitChar n h16, List.length_singleton]
      norm_num
    · rw [if_neg h16, parseHexAux_append]
      have hdiv : n / 16 < 16 ^ fuel := by
        rw [Nat.div_lt_iff_lt_mul (by omega)]
        calc n < 16 ^ (fuel + 1) := h
        _ = 16 ^ fuel * 16 := by ring
      rw [ih _ acc hdiv]
      simp only [parseHexAux, hexVal_hexDigitChar _ (Nat.mod_lt n (by omega)),
        List.length_append, List.length_singleton]
      congr 1
      rw [pow_succ]
      have := Nat.div_add_mod n 16
      ring_nf
      omega

theorem hexStr_ne_nil (n : Nat) : hexStr n ≠ [] := by
  rcases hexChars_shape (n + 1) n (by omega) with ⟨l, d, heq, _⟩
  rw [hexStr, heq]
  simp

theorem parseHex_hexStr (n : Nat) : parseHex (hexStr n) = some n := by
  have hlt : n < 16 ^ (n + 1) :=
    lt_of_lt_of_le (Nat.lt_pow_self (by norm_num) n)
      (Nat.pow_le_pow_right (by norm_num) (by omega))
  have haux := parseHexAux_hexChars (n + 1) n 0 hlt
  have hne : hexChars (n + 1) n ≠ [] := hexStr_ne_nil n
  show parseHex (hexChars (n + 1) n) = some n
  rcases hq : hexChars (n + 1) n with _ | ⟨c, rest⟩
  · exact absurd hq hne
  · rw [hq] at haux
    show parseHexAux (c :: rest) 0 = some n
    rw [haux]
    norm_num

theorem hexStr_mem_not_ws (n : Nat) (c : Char) (hc : c ∈ hexStr n) : isWs c = false := by
  rcases hexChars_mem_isHexDigit (n + 1) n c hc with ⟨d, hd, rfl⟩
  exact isWs_hexDigitChar d hd

theorem hexStr_getLast_ne_colon (n : Nat) : (hexStr n).getLast? ≠ some ':' := by
  rcases hexChars_shape (n + 1) n (by omega) with ⟨l, d, heq, hd⟩
  rw [hexStr, heq, List.getLast?_concat]
  intro hcon
  have : hexDigitChar d = ':' := by injection hcon
  revert this
  interval_cases d <;> decide

/-! ## C1 general development: tokenization of the rendered sidecar -/

theorem tokenizeAux_nonws (tok : List Char) (rest acc : List Char)
    (h : ∀ c ∈ tok, isWs c = false) :
    tokenizeAux (tok ++ rest) acc = tokenizeAux rest (tok.reverse ++ acc) := by
  induction tok generalizing acc with
  | nil => simp
  | cons c tok' ih =>
    have hc : isWs c = false := h c (List.mem_cons_self c tok')
    rw [List.cons_append, tokenizeAux, if_neg (by simp [hc]),
      ih _ (fun x hx => h x (List.mem_cons_of_mem c hx))]
    simp

theorem tokenizeAux_ws_nil (w : Char) (rest : List Char) (hw : isWs w = true) :
    tokenizeAux (w :: rest) [] = tokenizeAux rest [] := by
  rw [tokenizeAux, if_pos (by simp [hw])]
  simp

theorem tokenizeAux_ws_cons (w : Char) (rest acc : List Char) (hw : isWs w = true)
    (ha : acc ≠ []) :
    tokenizeAux (w :: rest) acc = acc.reverse :: tokenizeAux rest [] := by
  rw [tokenizeAux, if_pos (by simp [hw]), if_neg (by simpa using ha)]

theorem tokenize_token (tok : List Char) (w : Char) (rest : List Char)
    (hne : tok ≠ []) (h : ∀ c ∈ tok, isWs c = false) (hw : isWs w = true) :
    tokenize (tok ++ w :: rest) = tok :: tokenize rest := by
  rw [tokenize, tokenizeAux_nonws tok (w :: rest) [] h, List.append_nil,
    tokenizeAux_ws_cons w rest tok.reverse hw (by simpa using hne)]
  simp [tokenize]

/-- Token list of one rendered sidecar: per entry, the offset token (hex
digits then a colon) followed by one hex token per displaced byte. -/
def sidecarTokens (entries : WriteMap) : List (List Char) :=
  entries.foldr (fun e acc => (hexStr e.1 ++ [':']) :: (e.2.map hexStr ++ acc)) []

theorem tokenize_byteRun (bytes : Bytes) (rest : List Char) :
    tokenize (bytes.foldr (fun b acc => hexStr b ++ [' '] ++ acc) ['\n'] ++ rest) =
      bytes.map hexStr ++ tokenize rest := by
  induction bytes with
  | nil =>
    show tokenize ('\n' :: rest) = tokenize rest
    exact tokenizeAux_ws_nil '\n' rest (by decide)
  | cons b bs ih =>
    have hassoc :
        (hexStr b ++ [' '] ++ bs.foldr (fun b acc => hexStr b ++ [' '] ++ acc) ['\n']) ++
            rest =
          hexStr b ++ ' ' ::
            (bs.foldr (fun b acc => hexStr b ++ [' '] ++ acc) ['\n'] ++ rest) := by
      simp
    rw [List.foldr_cons, hassoc,
      tokenize_token (hexStr b) ' ' _ (hexStr_ne_nil b) (hexStr_mem_not_ws b) (by decide),
      ih, List.map_cons, List.cons_append]

theorem offset_token_ne_nil (off : Nat) : hexStr off ++ [':'] ≠ [] := by
  simp

theorem offset_token_nonws (off : Nat) :
    ∀ c ∈ hexStr off ++ [':'], isWs c = false := by
  intro c hc
  rcases List.mem_append.mp hc with h | h
  · exact hexStr_mem_not_ws off c h
  · simp only [List.mem_singleton] at h
    subst h
    decide

theorem tokenize_renderSidecar (entries : WriteMap) :
    tokenize (renderSidecar entries) = sidecarTokens entries := by
  induction entries with
  | nil => rfl
  | cons e es ih =>
    show tokenize (renderLine e.1 e.2 ++ renderSidecar es) = _
    have hassoc :
        renderLine e.1 e.2 ++ renderSidecar es =
          (hexStr e.1 ++ [':']) ++ ' ' ::
            (e.2.foldr (fun b acc => hexStr b ++ [' '] ++ acc) ['\n'] ++
              renderSidecar es) := by
      simp [renderLine]
    rw [hassoc,
      tokenize_token _ ' ' _ (offset_token_ne_nil e.1) (offset_token_nonws e.1) (by decide),
      tokenize_byteRun, ih]
    rfl

/-! ## C1 general development: semantics of the revert token replay -/

/-- Cumulative effect of a list of byte-range writes, the shape shared by
the flush loop (staged bytes) and the revert replay (displaced bytes). -/
def applyWrites (c : Bytes) (m : WriteMap) : Bytes :=
  m.foldl (fun acc e => writeBytes acc e.1 e.2) c

theorem writeBytes_nil (f : Bytes) (off : Nat) : writeBytes f off [] = f := by
  simp [writeBytes]

theorem writeByteAt_eq_writeBytes (f : Bytes) (pos b : Nat) (h : pos < f.length) :
    writeByteAt f pos b = writeBytes f pos [b] := by
  rw [writeByteAt, if_pos h]
  rfl

theorem writeBytes_cons (f : Bytes) (off b : Nat) (bs : Bytes)
    (h : off + (b :: bs).length ≤ f.length) :
    writeBytes f off (b :: bs) = writeBytes (writeBytes f off [b]) (off + 1) bs := by
  have hlc : (b :: bs).length = bs.length + 1 := by simp
  have h1 : off + ([b] : Bytes).length ≤ f.length := by
    rw [hlc] at h
    simp only [List.length_singleton]
    omega
  have hw1 : (writeBytes f off [b]).length = f.length := length_writeBytes f off [b] h1
  have h2 : off + 1 + bs.length ≤ (writeBytes f off [b]).length := by
    rw [hw1]
    rw [hlc] at h
    omega
  apply List.ext_getElem?
  intro i
  rw [getElem?_writeBytes _ _ _ _ h, getElem?_writeBytes _ _ _ _ h2,
    getElem?_writeBytes _ _ _ _ h1]
  simp only [List.length_cons, List.length_nil, Nat.zero_add]
  split_ifs <;>
    first
      | rfl
      | (exfalso; omega)
      | (have hz : i - off = 0 := by omega
         rw [hz]
         simp)
      | (have hs : i - off = i - (off + 1) + 1 := by omega
         rw [hs, List.getElem?_cons_succ])

theorem revertTokens_byteRun (bs : Bytes) (rest : List (List Char)) (c : Bytes)
    (cursor : Nat) (hbv : ∀ b ∈ bs, b ≤ 0xFF) (hinb : cursor + bs.length ≤ c.length) :
    revertTokens (bs.map hexStr ++ rest) c cursor =
      revertTokens rest (writeBytes c cursor bs) (cursor + bs.length) := by
  induction bs generalizing c cursor with
  | nil =>
    simp [writeBytes_nil]
  | cons b bs' ih =>
    simp only [List.length_cons] at hinb
    rw [List.map_cons, List.cons_append, revertTokens,
      if_neg (hexStr_getLast_ne_colon b)]
    simp only [parseHex_hexStr]
    rw [if_pos (hbv b (List.mem_cons_self b bs'))]
    rw [writeByteAt_eq_writeBytes c cursor b (by omega)]
    have h1 : cursor + ([b] : Bytes).length ≤ c.length := by
      simp only [List.length_singleton]
      omega
    rw [ih _ _ (fun x hx => hbv x (List.mem_cons_of_mem b hx))
      (by rw [length_writeBytes _ _ _ h1]; omega)]
    rw [← writeBytes_cons c cursor b bs' (by simp only [List.length_cons]; omega)]
    congr 1
    simp only [List.length_cons]
    omega

theorem revertTokens_sidecar (side : WriteMap) (c : Bytes) (cursor : Nat)
    (hbv : ∀ e ∈ side, ∀ b ∈ e.2, b ≤ 0xFF)
    (hinb : ∀ e ∈ side, e.1 + e.2.length ≤ c.length) :
    revertTokens (sidecarTokens side) c cursor = Except.ok (applyWrites c side) := by
  induction side generalizing c cursor with
  | nil => rfl
  | cons e es ih =>
    show revertTokens ((hexStr e.1 ++ [':']) :: (e.2.map hexStr ++ sidecarTokens es))
        c cursor = _
    rw [revertTokens, if_pos (by rw [List.getLast?_concat]), List.dropLast_concat]
    simp only [parseHex_hexStr]
    rw [revertTokens_byteRun e.2 _ c e.1 (hbv e (List.mem_cons_self e es))
      (hinb e (List.mem_cons_self e es))]
    have hwl : (writeBytes c e.1 e.2).length = c.length :=
      length_writeBytes _ _ _ (hinb e (List.mem_cons_self e es))
    exact ih _ _ (fun x hx => hbv x (List.mem_cons_of_mem e hx))
      (fun x hx => by rw [hwl]; exact hinb x (List.mem_cons_of_mem e hx))

/-! ## C1 general development: flush characterisation and restore -/

/-- Displaced-byte sidecar recorded by a flush of pairwise-disjoint
ranges: the original bytes of each staged range. -/
def sidecarOf (c : Bytes) (m : WriteMap) : WriteMap :=
  m.map (fun e => (e.1, readBytes c e.1 e.2.length))

theorem length_applyWrites (c : Bytes) (m : WriteMap)
    (hb : ∀ e ∈ m, e.1 + e.2.length ≤ c.length) :
    (applyWrites c m).length = c.length := by
  induction m generalizing c with
  | nil => rfl
  | cons e es ih =>
    show (applyWrites (writeBytes c e.1 e.2) es).length = _
    have h1 := hb e (List.mem_cons_self e es)
    have hw := length_writeBytes c e.1 e.2 h1
    rw [ih _ (fun x hx => by rw [hw]; exact hb x (List.mem_cons_of_mem e hx)), hw]

theorem flushEntries_eq (c : Bytes) (m : WriteMap)
    (hchain : m.Pairwise (fun a b => a.1 + a.2.length ≤ b.1))
    (hb : ∀ e ∈ m, e.1 + e.2.length ≤ c.length) :
    flushEntries c m = Except.ok (applyWrites c m, sidecarOf c m) := by
  induction m generalizing c with
  | nil => rfl
  | cons e es ih =>
    rcases e with ⟨off, bs⟩
    rcases List.pairwise_cons.mp hchain with ⟨hhead, htail⟩
    have h1 : off + bs.length ≤ c.length := hb _ (List.mem_cons_self _ _)
    have hw := length_writeBytes c off bs h1
    have hbes : ∀ x ∈ es, x.1 + x.2.length ≤ (writeBytes c off bs).length := by
      intro x hx
      rw [hw]
      exact hb x (List.mem_cons_of_mem _ hx)
    have hside : sidecarOf (writeBytes c off bs) es = sidecarOf c es := by
      apply List.map_congr_left
      intro x hx
      rw [readBytes_writeBytes_disjoint c off bs x.1 x.2.length (hhead x hx) h1]
    rw [flushEntries]
    simp only [readBytesE, if_pos h1, ih _ htail hbes, hside]
    rfl

theorem getElem?_applyWrites_outside (orig : Bytes) (m : WriteMap) (i : Nat)
    (hb : ∀ e ∈ m, e.1 + e.2.length ≤ orig.length)
    (hout : ∀ e ∈ m, i < e.1 ∨ e.1 + e.2.length ≤ i) :
    (applyWrites orig m)[i]? = orig[i]? := by
  induction m generalizing orig with
  | nil => rfl
  | cons e es ih =>
    show (applyWrites (writeBytes orig e.1 e.2) es)[i]? = orig[i]?
    have h1 := hb e (List.mem_cons_self e es)
    have hw := length_writeBytes orig e.1 e.2 h1
    rw [ih _ (fun x hx => by rw [hw]; exact hb x (List.mem_cons_of_mem e hx))
      (fun x hx => hout x (List.mem_cons_of_mem e hx))]
    rw [getElem?_writeBytes _ _ _ _ h1]
    rcases hout e (List.mem_cons_self e es) with h2 | h2
    · rw [if_pos h2]
    · rw [if_neg (by omega), if_neg (by omega)]

theorem applyWrites_sidecar_restore (orig : Bytes) (m : WriteMap) (g : Bytes)
    (hb : ∀ e ∈ m, e.1 + e.2.length ≤ orig.length)
    (hlen : g.length = orig.length)
    (hagree : ∀ i, (∀ e ∈ m, i < e.1 ∨ e.1 + e.2.length ≤ i) → g[i]? = orig[i]?) :
    applyWrites g (sidecarOf orig m) = orig := by
  induction m generalizing g with
  | nil =>
    apply List.ext_getElem?
    intro i
    exact hagree i (by simp)
  | cons e es ih =>
    rcases e with ⟨off, bs⟩
    have h1 : off + bs.length ≤ orig.length := hb _ (List.mem_cons_self _ _)
    have hr : (readBytes orig off bs.length).length = bs.length :=
      length_readBytes orig off _ h1
    have hinb : off + (readBytes orig off bs.length).length ≤ g.length := by
      rw [hr, hlen]
      exact h1
    show applyWrites (writeBytes g off (readBytes orig off bs.length)) (sidecarOf orig es) =
      orig
    apply ih
    · exact fun x hx => hb x (List.mem_cons_of_mem _ hx)
    · rw [length_writeBytes g off _ hinb, hlen]
    · intro i hi
      rw [getElem?_writeBytes _ _ _ _ hinb, hr]
      rcases Nat.lt_or_ge i off with h2 | h2
      · rw [if_pos h2]
        exact hagree i (fun x hx => by
          rcases List.mem_cons.mp hx with rfl | hx2
          · left; exact h2
          · exact hi x hx2)
      · rcases Nat.lt_or_ge i (off + bs.length) with h3 | h3
        · rw [if_neg (by omega), if_pos h3, getElem?_readBytes, if_pos (by omega)]
          congr 1
          omega
        · rw [if_neg (by omega), if_neg (by omega)]
          exact hagree i (fun x hx => by
            rcases List.mem_cons.mp hx with rfl | hx2
            · right; exact h3
            · exact hi x hx2)

theorem mem_of_mem_readBytes (f : Bytes) (off len b : Nat)
    (hb : b ∈ readBytes f off len) : b ∈ f :=
  List.mem_of_mem_drop (List.mem_of_mem_take hb)

theorem except_bind_ok {α β : Type} (a : α) (k : α → Except Err β) :
    (Except.ok a >>= k) = k a := rfl

theorem orig_bytes_path_ne (path : String) : ¬path = orig_bytes_path path := by
  intro h
  have hlen := congrArg String.length h
  rw [orig_bytes_path, String.length_append] at hlen
  have : (".InfernoOriginalBytes" : String).length = 21 := rfl
  omega

/-- C1 as amended: for every cache file C and every set of staged writes
whose byte ranges are pairwise disjoint (the spec notes patch sites are
disjoint by construction) and in bounds, committing and then running
Patcher::revert on C restores C byte-identically and removes the
sidecar; the counterexample shows the unrestricted claim, covering
overlapping ranges, fails. -/
theorem C1_commit_revert_roundtrip (path : String) (c : Bytes) (m : WriteMap)
    (hchain : m.Pairwise (fun a b => a.1 + a.2.length ≤ b.1))
    (hb : ∀ e ∈ m, e.1 + e.2.length ≤ c.length)
    (hbytes : ∀ b ∈ c, b ≤ 0xFF) :
    ∃ fs1 ops1 ops2,
      (Patcher.mk [(path, m)]).flush [(path, FNode.bin c)] = Except.ok (fs1, ops1) ∧
      Patcher.revert path fs1 = Except.ok ([(path, FNode.bin c)], ops2) := by
  have hne := orig_bytes_path_ne path
  have hne2 : ¬orig_bytes_path path = path := fun h => hne h.symm
  have hc2 := length_applyWrites c m hb
  have hget : fsGet [(path, FNode.bin c)] path = some (FNode.bin c) := by
    simp [fsGet]
  have hfs1 : fsSet (fsSet [(path, FNode.bin c)] path (FNode.bin (applyWrites c m)))
      (orig_bytes_path path) (FNode.txt (renderSidecar (sidecarOf c m))) =
      [(path, FNode.bin (applyWrites c m)),
        (orig_bytes_path path, FNode.txt (renderSidecar (sidecarOf c m)))] := by
    simp [fsSet, hne]
  refine ⟨[(path, FNode.bin (applyWrites c m)),
      (orig_bytes_path path, FNode.txt (renderSidecar (sidecarOf c m)))],
    [FsOp.openRW path, FsOp.createTrunc (orig_bytes_path path)],
    [FsOp.openRW path, FsOp.removeFile (orig_bytes_path path)], ?_, ?_⟩
  · show flushQueue [(path, FNode.bin c)] [(path, m)] = _
    rw [flushQueue]
    simp only [hget, except_bind_ok, flushEntries_eq c m hchain hb, hfs1]
    rfl
  · have hbv : ∀ e ∈ sidecarOf c m, ∀ b ∈ e.2, b ≤ 0xFF := by
      intro e he b hbm
      rcases List.mem_map.mp he with ⟨x, _, rfl⟩
      exact hbytes b (mem_of_mem_readBytes c x.1 x.2.length b hbm)
    have hinb : ∀ e ∈ sidecarOf c m, e.1 + e.2.length ≤ (applyWrites c m).length := by
      intro e he
      rcases List.mem_map.mp he with ⟨x, hx, rfl⟩
      rw [hc2]
      simp only
      rw [length_readBytes c x.1 x.2.length (hb x hx)]
      exact hb x hx
    have hrestore : applyWrites (applyWrites c m) (sidecarOf c m) = c :=
      applyWrites_sidecar_restore c m (applyWrites c m) hb hc2
        (fun i hi => getElem?_applyWrites_outside c m i hb hi)
    have hrt : revertTokens (tokenize (renderSidecar (sidecarOf c m)))
        (applyWrites c m) 0 = Except.ok c := by
      rw [tokenize_renderSidecar,
        revertTokens_sidecar (sidecarOf c m) (applyWrites c m) 0 hbv hinb, hrestore]
    have hgetsc : fsGet [(path, FNode.bin (applyWrites c m)),
        (orig_bytes_path path, FNode.txt (renderSidecar (sidecarOf c m)))]
        (orig_bytes_path path) = some (FNode.txt (renderSidecar (sidecarOf c m))) := by
      simp [fsGet, hne]
    have hgetc : fsGet [(path, FNode.bin (applyWrites c m)),
        (orig_bytes_path path, FNode.txt (renderSidecar (sidecarOf c m)))] path =
        some (FNode.bin (applyWrites c m)) := by
      simp [fsGet]
    have hfinal : fsRemove (fsSet [(path, FNode.bin (applyWrites c m)),
          (orig_bytes_path path, FNode.txt (renderSidecar (sidecarOf c m)))] path
          (FNode.bin c)) (orig_bytes_path path) = [(path, FNode.bin c)] := by
      simp [fsSet, fsRemove, hne, hne2]
    rw [Patcher.revert]
    simp only [hgetsc, hgetc, hrt, except_bind_ok, hfinal]

/-- Witness for C1 at the spec's S5 scenario: the 16-byte all-0xAA file
with the single staged write at offset 4. -/
theorem C1_commit_revert_roundtrip_witness :
    ∃ fs1 ops1 ops2,
      (Patcher.mk [("C", [(4, [0x1F, 0x20, 0x03, 0xD5])])]).flush
        [("C", FNode.bin (List.replicate 16 0xAA))] = Except.ok (fs1, ops1) ∧
      Patcher.revert "C" fs1 =
        Except.ok ([("C", FNode.bin (List.replicate 16 0xAA))], ops2) :=
  C1_commit_revert_roundtrip "C" (List.replicate 16 0xAA) [(4, [0x1F, 0x20, 0x03, 0xD5])]
    (by simp) (by decide) (by decide)

/-! ## parse.hpp: typed little-endian reads over a byte stream

The stream is a byte list plus an explicit position; every read returns
the value and the advanced position, or OutOfRange past the end, as
read_stream throws there. -/

def read_u8 (d : Bytes) (pos : Nat) : Except Err (Nat × Nat) :=
  match d[pos]? with
  | some b => Except.ok (b, pos + 1)
  | none => Except.error Err.outOfRange

def read_u32_le (d : Bytes) (pos : Nat) : Except Err (Nat × Nat) := do
  let (b0, pos) ← read_u8 d pos
  let (b1, pos) ← read_u8 d pos
  let (b2, pos) ← read_u8 d pos
  let (b3, pos) ← read_u8 d pos
  Except.ok (b0 ||| (b1 <<< 8) ||| (b2 <<< 16) ||| (b3 <<< 24), pos)

def read_u64_le (d : Bytes) (pos : Nat) : Except Err (Nat × Nat) := do
  let (lo, pos) ← read_u32_le d pos
  let (hi, pos) ← read_u32_le d pos
  Except.ok (lo ||| (hi <<< 32), pos)

/-- Embedding of a fixed-length read_stream (the 16-byte UUID read). -/
def read_bytes (d : Bytes) (pos n : Nat) : Except Err (Bytes × Nat) :=
  if pos + n ≤ d.length then Except.ok (readBytes d pos n, pos + n)
  else Except.error Err.outOfRange

def read_cstr_aux (d : Bytes) : Nat → Nat → Except Err (Bytes × Nat)
  | 0, _ => Except.error Err.outOfRange
  | fuel + 1, pos => do
    let (b, pos1) ← read_u8 d pos
    if b = 0 then Except.ok ([], pos1)
    else do
      let (s, pos2) ← read_cstr_aux d fuel pos1
      Except.ok (b :: s, pos2)

/-- Embedding of read_cstr: bytes until NUL, NUL consumed.  The fuel
d.length + 1 exceeds the number of byte reads any run can perform, so
the fuel-exhaustion arm is unreachable. -/
def read_cstr (d : Bytes) (pos : Nat) : Except Err (Bytes × Nat) :=
  read_cstr_aux d (d.length + 1) pos

def read_cstrn_aux (d : Bytes) : Nat → Nat → Except Err (Bytes × Nat)
  | 0, pos => Except.ok ([], pos)
  | n + 1, pos => do
    let (b, pos1) ← read_u8 d pos
    if b = 0 then Except.ok ([], pos1 - 1)
    else do
      let (s, pos2) ← read_cstrn_aux d n pos1
      Except.ok (b :: s, pos2)

/-- Embedding of read_cstrn(n): up to n bytes, stop at NUL (seeking back
one), then always advance the stream to exactly n bytes past the start. -/
def read_cstrn (d : Bytes) (n pos : Nat) : Except Err (Bytes × Nat) := do
  let (s, pos1) ← read_cstrn_aux d n pos
  Except.ok (s, pos1 + (n - s.length))

/-! ## cache.hpp: DyldCacheHeader -/

structure DyldCacheHeader.Mapping where
  base : Nat
  size : Nat
  file_off : Nat
  deriving DecidableEq, Repr

structure DyldCacheHeader.Image where
  base : Nat
  path : Bytes
  deriving DecidableEq, Repr

structure DyldCacheHeader.LocalSymbols where
  nlist_start_index : Nat
  nlist_count : Nat
  deriving DecidableEq, Repr

structure DyldCacheHeader.LocalSymbolsInfo where
  nlist_off : Nat
  strings_off : Nat
  entries : List (Nat × DyldCacheHeader.LocalSymbols)
  deriving DecidableEq, Repr

structure DyldCacheHeader.Subcache where
  vm_off : Nat
  suffix : Bytes
  deriving DecidableEq, Repr

/-- Role of a cache member (the C++ nested enum Type; Type is a Lean
keyword, hence the name CacheType). -/
inductive CacheType where
  | Main
  | Sub
  | Symbols
  deriving DecidableEq, Repr

structure DyldCacheHeader where
  mappings : List DyldCacheHeader.Mapping
  images : List DyldCacheHeader.Image
  cache_base : Nat
  local_symbols_off : Nat
  local_symbols : DyldCacheHeader.LocalSymbolsInfo
  subcaches : List DyldCacheHeader.Subcache
  symbol_file_uuid : Bytes
  deriving DecidableEq, Repr

/-- Decimal digit characters for std::to_string. -/
def decChars : Nat → Nat → List Char
  | 0, _ => []
  | fuel + 1, n =>
    if n < 10 then [Char.ofNat (48 + n)]
    else decChars fuel (n / 10) ++ [Char.ofNat (48 + n % 10)]

def decStr (n : Nat) : List Char :=
  decChars (n + 1) n

def readMapping (d : Bytes) (pos : Nat) : Except Err (DyldCacheHeader.Mapping × Nat) := do
  let (base, pos) ← read_u64_le d pos
  let (size, pos) ← read_u64_le d pos
  let (file_off, pos) ← read_u64_le d pos
  Except.ok ({ base := base, size := size, file_off := file_off }, pos + 8)

def readMappings (d : Bytes) : Nat → Nat → Except Err (List DyldCacheHeader.Mapping × Nat)
  | 0, pos => Except.ok ([], pos)
  | n + 1, pos => do
    let (m, pos) ← readMapping d pos
    let (ms, pos) ← readMappings d n pos
    Except.ok (m :: ms, pos)

def readImage (d : Bytes) (pos : Nat) : Except Err (DyldCacheHeader.Image × Nat) := do
  let (base, pos) ← read_u64_le d pos
  let pos := pos + 16
  let (path_off, pos) ← read_u32_le d pos
  let pos := pos + 4
  let (path, _) ← read_cstr d path_off
  Except.ok ({ base := base, path := path }, pos)

def readImages (d : Bytes) : Nat → Nat → Except Err (List DyldCacheHeader.Image × Nat)
  | 0, pos => Except.ok ([], pos)
  | n + 1, pos => do
    let (im, pos) ← readImage d pos
    let (ims, pos) ← readImages d n pos
    Except.ok (im :: ims, pos)

/-- Embedding of std::unordered_map::emplace for the local-symbols entry
map: insertion is skipped when the key is already present. -/
def lsEmplace (l : List (Nat × DyldCacheHeader.LocalSymbols)) (k : Nat)
    (v : DyldCacheHeader.LocalSymbols) : List (Nat × DyldCacheHeader.LocalSymbols) :=
  if l.any (fun e => e.1 = k) then l else l ++ [(k, v)]

def readLSEntries (d : Bytes) (is_64 : Bool) (cache_base : Nat) :
    Nat → Nat → List (Nat × DyldCacheHeader.LocalSymbols) →
    Except Err (List (Nat × DyldCacheHeader.LocalSymbols) × Nat)
  | 0, pos, acc => Except.ok (acc, pos)
  | i + 1, pos, acc => do
    let (dylib_offset, pos) ← if is_64 then read_u64_le d pos else read_u32_le d pos
    let (nsi, pos) ← read_u32_le d pos
    let (nc, pos) ← read_u32_le d pos
    readLSEntries d is_64 cache_base i pos
      (lsEmplace acc (cache_base + dylib_offset) { nlist_start_index := nsi, nlist_count := nc })

def readLocalSymbolsInfo (d : Bytes) (local_info_off : Nat) (is_64 : Bool)
    (cache_base : Nat) : Except Err DyldCacheHeader.LocalSymbolsInfo :=
  if local_info_off = 0 then
    Except.ok { nlist_off := 0, strings_off := 0, entries := [] }
  else do
    let pos := local_info_off
    let (nlist_off, pos) ← read_u32_le d pos
    let pos := pos + 4
    let (strings_off, pos) ← read_u32_le d pos
    let pos := pos + 4
    let (entries_offset, pos) ← read_u32_le d pos
    let (entries_count, _) ← read_u32_le d pos
    let (entries, _) ← readLSEntries d is_64 cache_base entries_count
      (local_info_off + entries_offset) []
    Except.ok { nlist_off := nlist_off, strings_off := strings_off, entries := entries }

def readSubcache (d : Bytes) (pos : Nat) (index : Nat) (is_v1 : Bool) :
    Except Err (DyldCacheHeader.Subcache × Nat) := do
  let (vm_off, pos1) ← read_u64_le d (pos + 16)
  if is_v1 then
    Except.ok (⟨vm_off, ('.'.toNat) :: (decStr (index + 1)).map Char.toNat⟩, pos1)
  else do
    let (suffix, pos2) ← read_cstrn d 32 pos1
    Except.ok ({ vm_off := vm_off, suffix := suffix }, pos2)

def readSubcaches (d : Bytes) (is_v1 : Bool) :
    Nat → Nat → Nat → Except Err (List DyldCacheHeader.Subcache × Nat)
  | 0, _, pos => Except.ok ([], pos)
  | n + 1, index, pos => do
    let (sc, pos) ← readSubcache d pos index is_v1
    let (scs, pos) ← readSubcaches d is_v1 n (index + 1) pos
    Except.ok (sc :: scs, pos)

def zeroUUID : Bytes := List.replicate 16 0

/-- Embedding of the DyldCacheHeader constructor, the whole
version-gated parse: mapping directory at 0x10, cache_base at 0xE0,
symbol-file UUID at 0x190 when the offset field is at least 0x190,
local-symbols anchor at 0x48, split layout when the offset field is at
least 0x18C (image directory at 0x1C0 instead of 0x18, subcache
directory at 0x188, legacy numeric suffixes when the offset field is at
most 0x1C8). -/
def DyldCacheHeader.parse (d : Bytes) (type : CacheType) (main_cache_base : Nat := 0) :
    Except Err DyldCacheHeader := do
  let pos := 0x10
  let (mapping_off, pos) ← read_u32_le d pos
  let (mapping_count, _) ← read_u32_le d pos
  let mappings ←
    if type ≠ CacheType.Symbols ∧ mapping_off ≠ 0 ∧ mapping_count ≠ 0 then do
      let (ms, _) ← readMappings d mapping_count mapping_off
      Except.ok ms
    else
      Except.ok []
  let (cache_base, _) ← read_u64_le d 0xE0
  if type = CacheType.Sub then
    return ⟨mappings, [], cache_base, 0, ⟨0, 0, []⟩, [], zeroUUID⟩
  let (symbol_file_support, symbol_file_uuid) ←
    if type = CacheType.Symbols then
      Except.ok (true, zeroUUID)
    else if 0x190 ≤ mapping_off then do
      let (uuid, _) ← read_bytes d 0x190 16
      Except.ok (true, uuid)
    else
      Except.ok (false, zeroUUID)
  let (local_symbols_off, local_symbols) ←
    if type = CacheType.Symbols ∨ symbol_file_uuid = zeroUUID then do
      let (lso, _) ← read_u32_le d 0x48
      let ls ← readLocalSymbolsInfo d lso symbol_file_support
        (if main_cache_base = 0 then cache_base else main_cache_base)
      Except.ok (lso, ls)
    else
      Except.ok (0, (⟨0, 0, []⟩ : DyldCacheHeader.LocalSymbolsInfo))
  if type ≠ CacheType.Main then
    return ⟨mappings, [], cache_base, local_symbols_off, local_symbols, [],
      symbol_file_uuid⟩
  let split := 0x18C ≤ mapping_off
  let (image_off, pos2) ← read_u32_le d (if split then 0x1C0 else 0x18)
  let (image_count, _) ← read_u32_le d pos2
  if split ∧ image_count = 0 then
    Except.error Err.formatError
  else do
    let images ←
      if image_off ≠ 0 ∧ image_count ≠ 0 then do
        let (ims, _) ← readImages d image_count image_off
        Except.ok ims
      else
        Except.ok []
    let subcaches ←
      if split then do
        let (subcache_off, p3) ← read_u32_le d 0x188
        let (subcache_count, _) ← read_u32_le d p3
        if subcache_off ≠ 0 ∧ subcache_count ≠ 0 then do
          let subcache_v1 := decide (mapping_off ≤ 0x1C8)
          let (scs, _) ← readSubcaches d subcache_v1 subcache_count 0 subcache_off
          Except.ok scs
        else
          Except.ok []
      else
        Except.ok ([] : List DyldCacheHeader.Subcache)
    return ⟨mappings, images, cache_base, local_symbols_off, local_symbols,
      subcaches, symbol_file_uuid⟩

def vm_to_off_go (vm_addr : Nat) : List DyldCacheHeader.Mapping → Except Err Nat
  | [] => Except.error Err.outOfRange
  | mp :: rest =>
    if mp.base ≤ vm_addr ∧ vm_addr < mp.base + mp.size then
      Except.ok (mp.file_off + (vm_addr - mp.base))
    else
      vm_to_off_go vm_addr rest

/-- Embedding of DyldCacheHeader::vm_addr_to_file_off: linear scan of
the mappings. -/
def DyldCacheHeader.vm_addr_to_file_off (h : DyldCacheHeader) (vm_addr : Nat) :
    Except Err Nat :=
  vm_to_off_go vm_addr h.mappings

/-! ## C3 and C4: version-gated header parsing on synthetic headers -/

def u32le (v : Nat) : Bytes :=
  [v % 256, v / 2 ^ 8 % 256, v / 2 ^ 16 % 256, v / 2 ^ 24 % 256]

def u64le (v : Nat) : Bytes :=
  u32le (v % 2 ^ 32) ++ u32le (v / 2 ^ 32)

/-- Synthetic 0x400-byte header file built by patching zeros. -/
def mkHeaderFile (patches : WriteMap) : Bytes :=
  applyWrites (List.replicate 0x400 0) patches

/-- Legacy Main header: offset field 0x180 at 0x10; 0xFF garbage planted
at 0x190 and a subcache directory planted at 0x188 to show neither is
read; image directory at 0x18 pointing at one image. -/
def legacyHeaderA : Bytes := mkHeaderFile [
  (0x10, u32le 0x180), (0x14, u32le 0),
  (0x48, u32le 0),
  (0xE0, u64le 0x180000000),
  (0x18, u32le 0x300 ++ u32le 1),
  (0x188, u32le 0x200 ++ u32le 3),
  (0x190, List.replicate 16 0xFF),
  (0x1C0, u32le 0x3000 ++ u32le 9),
  (0x300, u64le 0x180001000), (0x318, u32le 0x340),
  (0x340, [0x2F, 0x61, 0])]

/-- Split Main header: offset field 0x1D0; UUID 0x11...11 at 0x190,
garbage 0x99 planted at the local-symbols anchor 0x48 to show it is not
read when the UUID is non-zero, garbage image directory planted at 0x18,
real image directory at 0x1C0, subcache directory at 0x188 with one
entry carrying the inline NUL-padded suffix ".sub". -/
def splitHeaderA : Bytes := mkHeaderFile [
  (0x10, u32le 0x1D0), (0x14, u32le 1),
  (0x48, u32le 0x99),
  (0xE0, u64le 0x180000000),
  (0x18, u32le 0x77 ++ u32le 5),
  (0x188, u32le 0x200 ++ u32le 1),
  (0x190, List.replicate 16 0x11),
  (0x1C0, u32le 0x300 ++ u32le 1),
  (0x1D0, u64le 0x180000000 ++ u64le 0x4000 ++ u64le 0),
  (0x210, u64le 0x4000000),
  (0x218, [0x2E, 0x73, 0x75, 0x62]),
  (0x300, u64le 0x180001000), (0x318, u32le 0x340),
  (0x340, [0x2F, 0x62, 0])]

/-- Split Main header with offset field 0x1C0 (at least 0x18C but at
most 0x1C8): split layout with legacy numeric subcache suffixes. -/
def splitV1Header : Bytes := mkHeaderFile [
  (0x10, u32le 0x1C0), (0x14, u32le 0),
  (0x48, u32le 0),
  (0xE0, u64le 0x180000000),
  (0x188, u32le 0x200 ++ u32le 2),
  (0x1C0, u32le 0x300 ++ u32le 1),
  (0x210, u64le 0x4000000),
  (0x228, u64le 0x8000000),
  (0x300, u64le 0x180001000), (0x318, u32le 0x340),
  (0x340, [0x2F, 0x63, 0])]

set_option maxRecDepth 100000 in
/-- C3: cache-header parsing is version-gated by the offset field read
at 0x10 with thresholds 0x190 (UUID), 0x18C (subcache directory) and
0x1C8 (legacy numeric suffix).  With the offset field 0x180 the parser
reads no UUID (despite non-zero bytes at 0x190) and no subcache
directory (despite one planted at 0x188) and reads the image directory
from 0x18; with 0x1D0 it reads the UUID at 0x190, the subcache directory
at 0x188 with the inline 32-byte NUL-padded suffix, and the image
directory from 0x1C0; with 0x1C0 (split but at most 0x1C8) subcache
suffixes are the derived numeric ".1", ".2". -/
theorem C3_version_gated_header_parsing :
    DyldCacheHeader.parse legacyHeaderA CacheType.Main =
      Except.ok ⟨[], [⟨0x180001000, [0x2F, 0x61]⟩], 0x180000000, 0, ⟨0, 0, []⟩, [],
        List.replicate 16 0⟩ ∧
    DyldCacheHeader.parse splitHeaderA CacheType.Main =
      Except.ok ⟨[⟨0x180000000, 0x4000, 0⟩], [⟨0x180001000, [0x2F, 0x62]⟩], 0x180000000,
        0, ⟨0, 0, []⟩, [⟨0x4000000, [0x2E, 0x73, 0x75, 0x62]⟩], List.replicate 16 0x11⟩ ∧
    DyldCacheHeader.parse splitV1Header CacheType.Main =
      Except.ok ⟨[], [⟨0x180001000, [0x2F, 0x63]⟩], 0x180000000, 0, ⟨0, 0, []⟩,
        [⟨0x4000000, [0x2E, 0x31]⟩, ⟨0x8000000, [0x2E, 0x32]⟩], List.replicate 16 0⟩ := by
  exact ⟨rfl, rfl, rfl⟩

/-- Legacy Main header (offset field 0x180) whose image directory at
0x18 declares image_count = 0. -/
def legacyZeroImages : Bytes := mkHeaderFile [
  (0x10, u32le 0x180), (0x14, u32le 0),
  (0x48, u32le 0),
  (0xE0, u64le 0x180000000),
  (0x18, u32le 0x300 ++ u32le 0)]

/-- Split Main header (offset field 0x1D0) whose image directory at
0x1C0 declares image_count = 0. -/
def splitZeroImages : Bytes := mkHeaderFile [
  (0x10, u32le 0x1D0), (0x14, u32le 0),
  (0x48, u32le 0),
  (0xE0, u64le 0x180000000),
  (0x190, List.replicate 16 0x11),
  (0x1C0, u32le 0x300 ++ u32le 0)]

set_option maxRecDepth 100000 in
/-- C4 counterexample: a Main header in the LEGACY layout whose image
count is zero parses successfully (empty image list), with no
FormatError: the guard in the code is `split && image_count == 0`, so
only the split layout rejects a zero image count. -/
theorem C4_legacy_zero_images_counterexample :
    DyldCacheHeader.parse legacyZeroImages CacheType.Main =
      Except.ok ⟨[], [], 0x180000000, 0, ⟨0, 0, []⟩, [], List.replicate 16 0⟩ ∧
    DyldCacheHeader.parse legacyZeroImages CacheType.Main ≠
      Except.error Err.formatError := by
  refine ⟨rfl, ?_⟩
  rw [show DyldCacheHeader.parse legacyZeroImages CacheType.Main =
    Except.ok ⟨[], [], 0x180000000, 0, ⟨0, 0, []⟩, [], List.replicate 16 0⟩ from rfl]
  exact fun h => Except.noConfusion h

set_option maxRecDepth 100000 in
/-- C4 as amended: a Main header whose image directory declares
image_count = 0 fails with FormatError (the code's "main cache
expected, but got a subcache") in the split layout only; in the legacy
layout it parses successfully with an empty image list. -/
theorem C4_zero_images_split_only :
    DyldCacheHeader.parse splitZeroImages CacheType.Main =
      Except.error Err.formatError ∧
    DyldCacheHeader.parse legacyZeroImages CacheType.Main =
      Except.ok ⟨[], [], 0x180000000, 0, ⟨0, 0, []⟩, [], List.replicate 16 0⟩ := by
  exact ⟨rfl, rfl⟩

/-! ## analyser.hpp: image matchers (C6)

Strings are lists of characters; std::string_view::substr(pos, count)
throws out_of_range for pos beyond the length (the matcher catches it
and returns false) and otherwise clamps count to the available
characters. -/

def FRAMEWORK_EXT : List Char := ".framework/".data

def VERSIONS_A : List Char := "Versions/A/".data

/-- Embedding of string_view::substr: none models the throw. -/
def svSubstr (s : List Char) (pos len : Nat) : Option (List Char) :=
  if pos ≤ s.length then some ((s.drop pos).take len) else none

/-- Value of one substr-equality conjunct of matches_with_base. -/
def svEq (s : List Char) (pos : Nat) (t : List Char) : Option Bool :=
  (svSubstr s pos t.length).map (fun u => decide (u = t))

/-- Embedding of IFrameworkMatch::matches_with_base, with the C++
short-circuit evaluation order and the catch of out_of_range made
explicit: any conjunct that throws yields false. -/
def matches_with_base (framework_name base_dir str : List Char) : Bool :=
  match svEq str 0 base_dir with
  | none => false
  | some false => false
  | some true =>
    match svEq str base_dir.length framework_name with
    | none => false
    | some false => false
    | some true =>
      match svEq str (base_dir.length + framework_name.length) FRAMEWORK_EXT with
      | none => false
      | some false => false
      | some true =>
        match svEq str (base_dir.length + framework_name.length + FRAMEWORK_EXT.length)
            framework_name with
        | none => false
        | some true => true
        | some false =>
          match svEq str (base_dir.length + framework_name.length + FRAMEWORK_EXT.length)
              VERSIONS_A with
          | none => false
          | some false => false
          | some true =>
            match svEq str (base_dir.length + framework_name.length +
                FRAMEWORK_EXT.length + VERSIONS_A.length) framework_name with
            | none => false
            | some b => b

/-- Embedding of FrameworkMatch::matches. -/
def FrameworkMatch.matches (framework_name str : List Char) : Bool :=
  matches_with_base framework_name ("/System/Library/Frameworks/".data) str

/-- Embedding of PrivateFrameworkMatch::matches. -/
def PrivateFrameworkMatch.matches (framework_name str : List Char) : Bool :=
  matches_with_base framework_name ("/System/Library/PrivateFrameworks/".data) str

theorem svEq_of_prefix (u t s : List Char) (h : u <+: s) :
    svEq s u.length t = some (decide ((u ++ t) <+: s)) := by
  have hiff : ((s.drop u.length).take t.length = t) ↔ ((u ++ t) <+: s) := by
    obtain ⟨r, rfl⟩ := h
    rw [List.drop_left, List.prefix_append_right_inj, List.prefix_iff_eq_take]
    exact ⟨fun he => he.symm, fun he => he.symm⟩
  rw [svEq, svSubstr, if_pos h.length_le]
  show some (decide ((s.drop u.length).take t.length = t)) =
    some (decide ((u ++ t) <+: s))
  rw [decide_eq_decide.mpr hiff]

theorem isPrefixOf_eq_decide (a b : List Char) : a.isPrefixOf b = decide (a <+: b) := by
  cases hb : a.isPrefixOf b
  · have hn : ¬a <+: b := fun hp => by
      rw [(List.isPrefixOf_iff_prefix).mpr hp] at hb
      exact Bool.noConfusion hb
    rw [decide_eq_false hn]
  · rw [decide_eq_true ((List.isPrefixOf_iff_prefix).mp hb)]

theorem not_prefix_of_extends {a s : List Char} (b : List Char) (h : ¬a <+: s) :
    ¬(a ++ b) <+: s :=
  fun hab => h ((List.prefix_append a b).trans hab)

theorem matches_with_base_eq_prefixOf (framework_name base_dir s : List Char) :
    matches_with_base framework_name base_dir s =
      ((base_dir ++ framework_name ++ FRAMEWORK_EXT ++ framework_name).isPrefixOf s ||
        (base_dir ++ framework_name ++ FRAMEWORK_EXT ++ VERSIONS_A ++
          framework_name).isPrefixOf s) := by
  have e1 : svEq s 0 base_dir = some (decide (base_dir <+: s)) := by
    have h0 := svEq_of_prefix [] base_dir s List.nil_prefix
    simpa using h0
  rw [matches_with_base, e1, isPrefixOf_eq_decide, isPrefixOf_eq_decide]
  by_cases h1 : base_dir <+: s
  · rw [decide_eq_true h1]
    have e2 := svEq_of_prefix base_dir framework_name s h1
    rw [e2]
    by_cases h2 : base_dir ++ framework_name <+: s
    · rw [decide_eq_true h2]
      have e3 := svEq_of_prefix (base_dir ++ framework_name) FRAMEWORK_EXT s h2
      rw [List.length_append] at e3
      rw [e3]
      by_cases h3 : base_dir ++ framework_name ++ FRAMEWORK_EXT <+: s
      · rw [decide_eq_true h3]
        have e4 := svEq_of_prefix (base_dir ++ framework_name ++ FRAMEWORK_EXT)
          framework_name s h3
        rw [List.length_append, List.length_append] at e4
        rw [e4]
        by_cases h4 : base_dir ++ framework_name ++ FRAMEWORK_EXT ++ framework_name <+: s
        · rw [decide_eq_true h4, Bool.true_or]
        · rw [decide_eq_false h4]
          have e5 := svEq_of_prefix (base_dir ++ framework_name ++ FRAMEWORK_EXT)
            VERSIONS_A s h3
          rw [List.length_append, List.length_append] at e5
          rw [e5]
          by_cases h5 : base_dir ++ framework_name ++ FRAMEWORK_EXT ++ VERSIONS_A <+: s
          · rw [decide_eq_true h5]
            have e6 := svEq_of_prefix
              (base_dir ++ framework_name ++ FRAMEWORK_EXT ++ VERSIONS_A)
              framework_name s h5
            rw [List.length_append, List.length_append, List.length_append] at e6
            rw [e6, Bool.false_or]
          · rw [decide_eq_false h5,
              decide_eq_false (not_prefix_of_extends framework_name h5)]
            rfl
      · rw [decide_eq_false h3,
          decide_eq_false (not_prefix_of_extends framework_name h3),
          decide_eq_false (not_prefix_of_extends framework_name
            (not_prefix_of_extends VERSIONS_A h3))]
        rfl
    · rw [decide_eq_false h2,
        decide_eq_false (not_prefix_of_extends framework_name
          (not_prefix_of_extends FRAMEWORK_EXT h2)),
        decide_eq_false (not_prefix_of_extends framework_name
          (not_prefix_of_extends VERSIONS_A (not_prefix_of_extends FRAMEWORK_EXT h2)))]
      rfl
  · rw [decide_eq_false h1,
      decide_eq_false (not_prefix_of_extends framework_name
        (not_prefix_of_extends FRAMEWORK_EXT
          (not_prefix_of_extends framework_name h1))),
      decide_eq_false (not_prefix_of_extends framework_name
        (not_prefix_of_extends VERSIONS_A
          (not_prefix_of_extends FRAMEWORK_EXT
            (not_prefix_of_extends framework_name h1))))]
    rfl

/-- C6 counterexample: the public matcher for framework name "Foo"
accepts the install path "/System/Library/Frameworks/Foo.framework/FooBar",
which is neither of the two exact shapes the claim allows: the substr
comparisons never require the path to end after the framework name, so
every extension of a matching shape also matches. -/
theorem C6_matcher_exact_shape_counterexample :
    FrameworkMatch.matches ("Foo".data)
      ("/System/Library/Frameworks/Foo.framework/FooBar".data) = true ∧
    ("/System/Library/Frameworks/Foo.framework/FooBar".data ≠
      "/System/Library/Frameworks/Foo.framework/Foo".data) ∧
    ("/System/Library/Frameworks/Foo.framework/FooBar".data ≠
      "/System/Library/Frameworks/Foo.framework/Versions/A/Foo".data) := by
  exact ⟨rfl, by decide, by decide⟩

/-- C6 as amended: for every framework name N, the public matcher
accepts exactly the install paths that BEGIN with
/System/Library/Frameworks/N.framework/N or
/System/Library/Frameworks/N.framework/Versions/A/N (arbitrary trailing
characters allowed), and the private matcher likewise with base
directory /System/Library/PrivateFrameworks/. -/
theorem C6_matcher_prefix_shapes (framework_name s : List Char) :
    (FrameworkMatch.matches framework_name s =
      (("/System/Library/Frameworks/".data ++ framework_name ++ FRAMEWORK_EXT ++
          framework_name).isPrefixOf s ||
        ("/System/Library/Frameworks/".data ++ framework_name ++ FRAMEWORK_EXT ++
          VERSIONS_A ++ framework_name).isPrefixOf s)) ∧
    (PrivateFrameworkMatch.matches framework_name s =
      (("/System/Library/PrivateFrameworks/".data ++ framework_name ++ FRAMEWORK_EXT ++
          framework_name).isPrefixOf s ||
        ("/System/Library/PrivateFrameworks/".data ++ framework_name ++ FRAMEWORK_EXT ++
          VERSIONS_A ++ framework_name).isPrefixOf s)) :=
  ⟨matches_with_base_eq_prefixOf framework_name _ s,
    matches_with_base_eq_prefixOf framework_name _ s⟩

/-! ## assembler.hpp: ARM64 instruction coder -/

/-- General-purpose register of the GPReg enum (R0..R15). -/
abbrev GPReg := Fin 16

def NOP_INST : Nat := 0xD503201F
def RET_INST : Nat := 0xD65F03C0
def MOVZ_INST : Nat := 0x52800000
def BL_INST : Nat := 0x94000000
def BL_INST_MASK : Nat := 0xFC000000
def ADRP_INST : Nat := 0x90000000
def ADD_INST : Nat := 0x11000000
def BLR_INST : Nat := 0xD63F0000

/-- Embedding of u32_to_bytes: little-endian instruction bytes. -/
def u32_to_bytes (value : Nat) : Bytes :=
  [value &&& 0xFF, (value >>> 8) &&& 0xFF, (value >>> 16) &&& 0xFF, (value >>> 24) &&& 0xFF]

def ADRP_IMM_MAX : Int := (1 <<< 20) - 1

def ADRP_MAX : Nat := ((1 <<< 20) - 1) <<< 0xC

/-- Embedding of Assembler::make_adrp.  The signed page offset is
type-punned to a u32 (two's complement), split into imm21 low/high
fields and OR-ed into the base opcode. -/
def make_adrp (off : Int) (reg : GPReg) : Except Err Nat :=
  if off > ADRP_IMM_MAX ∨ off < -ADRP_IMM_MAX then
    Except.error Err.invalidOperand
  else
    let immu32 : Nat := (off % (2 ^ 32 : Int)).toNat
    Except.ok (ADRP_INST ||| (bit_extract immu32 0 2 <<< 29) |||
      (bit_extract immu32 2 19 <<< 5) ||| reg.val)

/-- Embedding of Assembler::make_add (ADDShift::_0 is 0, _12 is 1). -/
def make_add (imm : Nat) (wide : Bool) (source_reg dest_reg : GPReg) (shift : Fin 2) :
    Except Err Nat :=
  if bit_extract imm 12 4 ≠ 0 then
    Except.error Err.invalidOperand
  else
    Except.ok (ADD_INST ||| ((cond wide 1 0) <<< 31) ||| (shift.val <<< 22) |||
      (imm <<< 10) ||| (source_reg.val <<< 5) ||| dest_reg.val)

/-- Embedding of Assembler::write_inst: resolve the vm address through
the owning header and stage the 4 little-endian instruction bytes. -/
def write_inst (p : Patcher) (path : String) (header : DyldCacheHeader)
    (target : Nat) (inst : Nat) : Except Err Patcher := do
  let off ← header.vm_addr_to_file_off target
  Except.ok (p.write path off (u32_to_bytes inst))

/-- Embedding of Assembler::write_inst_incr: also advance the caller's
cursor by the 4-byte instruction width. -/
def write_inst_incr (p : Patcher) (path : String) (header : DyldCacheHeader)
    (target : Nat) (inst : Nat) : Except Err (Patcher × Nat) := do
  let p1 ← write_inst p path header target inst
  Except.ok (p1, target + 4)

/-- Embedding of Assembler::write_adrp_add_incr.  On a u64 the
expression `x & ~0xFFF` clears the low twelve bits, i.e. equals
x - x % 0x1000. -/
def write_adrp_add_incr (p : Patcher) (path : String) (header : DyldCacheHeader)
    (address target : Nat) (reg : GPReg) : Except Err (Patcher × Nat) := do
  let pc_page := address - address % 0x1000
  let target_page := target - target % 0x1000
  let low12 := target % 0x1000
  let adrp ←
    if target_page > pc_page then
      let off_pages := target_page - pc_page
      if off_pages > ADRP_MAX then Except.error Err.invalidOperand
      else make_adrp (Int.ofNat (off_pages >>> 0xC)) reg
    else
      let off_pages := pc_page - target_page
      if off_pages > ADRP_MAX then Except.error Err.invalidOperand
      else make_adrp (-(Int.ofNat (off_pages >>> 0xC))) reg
  let (p1, a1) ← write_inst_incr p path header address adrp
  let add ← make_add low12 true reg reg 0
  write_inst_incr p1 path header a1 add

/-- ARM64 semantics of the ADRP immediate, per the claim: the 21-bit
field immhi:immlo is sign extended. -/
def decode_adrp_imm (inst : Nat) : Int :=
  let immlo := bit_extract inst 29 2
  let immhi := bit_extract inst 5 19
  let imm21 := (immhi <<< 2) ||| immlo
  if imm21 < 2 ^ 20 then (imm21 : Int) else (imm21 : Int) - 2 ^ 21

/-- ARM64 semantics of ADRP at pc A: (A with low 12 bits cleared) plus
the signed page offset shifted left by 12. -/
def adrp_target (pc inst : Nat) : Int :=
  ((pc - pc % 0x1000 : Nat) : Int) + decode_adrp_imm inst * 0x1000

/-- ARM64 semantics of the ADD immediate (shift 0): bits [10..22). -/
def add_imm12 (inst : Nat) : Nat :=
  bit_extract inst 10 12

theorem lor_shiftLeft_add (x k y : Nat) (hy : y < 2 ^ k) :
    (x <<< k) ||| y = x * 2 ^ k + y := by
  rw [Nat.mul_comm x (2 ^ k)]
  apply Nat.eq_of_testBit_eq
  intro i
  rw [Nat.testBit_or, Nat.testBit_shiftLeft, Nat.testBit_mul_pow_two_add x hy i]
  by_cases h : i < k
  · simp [h, Nat.not_le.mpr h]
  · have hyi : y.testBit i = false :=
      Nat.testBit_lt_two_pow (lt_of_lt_of_le hy (Nat.pow_le_pow_right (by norm_num) (by omega)))
    simp [h, Nat.not_lt.mp h, hyi]

theorem lor_left_comm_nat (a b c : Nat) : a ||| (b ||| c) = b ||| (a ||| c) := by
  rw [← Nat.lor_assoc, Nat.lor_comm a b, Nat.lor_assoc]

theorem adrp_encode_additive (a b r : Nat) (ha : a < 4) (hb : b < 2 ^ 19) (hr : r < 32) :
    ADRP_INST ||| (a <<< 29) ||| (b <<< 5) ||| r =
      0x90000000 + a * 2 ^ 29 + b * 2 ^ 5 + r := by
  have h1 : (b <<< 5) ||| r = b * 2 ^ 5 + r :=
    lor_shiftLeft_add b 5 r (by omega)
  have h2 : (1 <<< 28) ||| (b * 2 ^ 5 + r) = 2 ^ 28 + (b * 2 ^ 5 + r) := by
    have := lor_shiftLeft_add 1 28 (b * 2 ^ 5 + r) (by
      have : b * 2 ^ 5 ≤ (2 ^ 19 - 1) * 2 ^ 5 := Nat.mul_le_mul_right _ (by omega)
      omega)
    simpa using this
  have h3 : (a <<< 29) ||| (2 ^ 28 + (b * 2 ^ 5 + r)) =
      a * 2 ^ 29 + (2 ^ 28 + (b * 2 ^ 5 + r)) := by
    refine lor_shiftLeft_add a 29 _ (by
      have : b * 2 ^ 5 ≤ (2 ^ 19 - 1) * 2 ^ 5 := Nat.mul_le_mul_right _ (by omega)
      omega)
  have h4 : (1 <<< 31) ||| (a * 2 ^ 29 + (2 ^ 28 + (b * 2 ^ 5 + r))) =
      2 ^ 31 + (a * 2 ^ 29 + (2 ^ 28 + (b * 2 ^ 5 + r))) := by
    have := lor_shiftLeft_add 1 31 (a * 2 ^ 29 + (2 ^ 28 + (b * 2 ^ 5 + r))) (by
      have hb5 : b * 2 ^ 5 ≤ (2 ^ 19 - 1) * 2 ^ 5 := Nat.mul_le_mul_right _ (by omega)
      have ha29 : a * 2 ^ 29 ≤ 3 * 2 ^ 29 := Nat.mul_le_mul_right _ (by omega)
      omega)
    simpa using this
  have hsplit : ADRP_INST = (1 <<< 31) ||| (1 <<< 28) := by decide
  rw [hsplit, Nat.lor_assoc, Nat.lor_assoc, Nat.lor_assoc,
    lor_left_comm_nat (1 <<< 28) (a <<< 29), h1, h2, h3, h4]
  have hb5 : b * 2 ^ 5 ≤ (2 ^ 19 - 1) * 2 ^ 5 := Nat.mul_le_mul_right _ (by omega)
  have ha29 : a * 2 ^ 29 ≤ 3 * 2 ^ 29 := Nat.mul_le_mul_right _ (by omega)
  omega

theorem add_encode_additive (imm s d : Nat) (him : imm < 2 ^ 12) (hs : s < 32)
    (hd : d < 32) :
    ADD_INST ||| (1 <<< 31) ||| (0 <<< 22) ||| (imm <<< 10) ||| (s <<< 5) ||| d =
      2 ^ 31 + (2 ^ 28 + (2 ^ 24 + (imm * 2 ^ 10 + (s * 2 ^ 5 + d)))) := by
  have h10 : imm * 2 ^ 10 ≤ (2 ^ 12 - 1) * 2 ^ 10 := Nat.mul_le_mul_right _ (by omega)
  have h5 : s * 2 ^ 5 ≤ 31 * 2 ^ 5 := Nat.mul_le_mul_right _ (by omega)
  have h1 : (s <<< 5) ||| d = s * 2 ^ 5 + d :=
    lor_shiftLeft_add s 5 d (by omega)
  have h2 : (imm <<< 10) ||| (s * 2 ^ 5 + d) = imm * 2 ^ 10 + (s * 2 ^ 5 + d) :=
    lor_shiftLeft_add imm 10 _ (by omega)
  have h3 : (1 <<< 24) ||| (imm * 2 ^ 10 + (s * 2 ^ 5 + d)) =
      2 ^ 24 + (imm * 2 ^ 10 + (s * 2 ^ 5 + d)) := by
    have := lor_shiftLeft_add 1 24 (imm * 2 ^ 10 + (s * 2 ^ 5 + d)) (by omega)
    simpa using this
  have h4 : (1 <<< 28) ||| (2 ^ 24 + (imm * 2 ^ 10 + (s * 2 ^ 5 + d))) =
      2 ^ 28 + (2 ^ 24 + (imm * 2 ^ 10 + (s * 2 ^ 5 + d))) := by
    have := lor_shiftLeft_add 1 28 (2 ^ 24 + (imm * 2 ^ 10 + (s * 2 ^ 5 + d))) (by omega)
    simpa using this
  have h6 : (1 <<< 31) ||| (2 ^ 28 + (2 ^ 24 + (imm * 2 ^ 10 + (s * 2 ^ 5 + d)))) =
      2 ^ 31 + (2 ^ 28 + (2 ^ 24 + (imm * 2 ^ 10 + (s * 2 ^ 5 + d)))) := by
    have := lor_shiftLeft_add 1 31
      (2 ^ 28 + (2 ^ 24 + (imm * 2 ^ 10 + (s * 2 ^ 5 + d)))) (by omega)
    simpa using this
  have hsplit : ADD_INST = (1 <<< 28) ||| (1 <<< 24) := by decide
  have hz : (0 : Nat) <<< 22 = 0 := rfl
  rw [hsplit, hz, Nat.lor_assoc, Nat.lor_assoc, Nat.lor_assoc, Nat.lor_assoc,
    Nat.zero_or, Nat.lor_assoc, lor_left_comm_nat (1 <<< 24) (1 <<< 31),
    lor_left_comm_nat (1 <<< 28) (1 <<< 31), h1, h2, h3, h4, h6]

theorem extract_mid (hi mid lo k l : Nat) (hmid : mid < 2 ^ l) (hlo : lo < 2 ^ k) :
    bit_extract (hi * 2 ^ (k + l) + mid * 2 ^ k + lo) k l = mid := by
  rw [bit_extract_eq_div_mod]
  have h1 : (hi * 2 ^ (k + l) + mid * 2 ^ k + lo) / 2 ^ k = hi * 2 ^ l + mid := by
    rw [pow_add,
      show hi * (2 ^ k * 2 ^ l) + mid * 2 ^ k + lo =
        lo + (hi * 2 ^ l + mid) * 2 ^ k by ring,
      Nat.add_mul_div_right _ _ (Nat.pos_pow_of_pos k (by norm_num)),
      Nat.div_eq_of_lt hlo]
    omega
  rw [h1, Nat.mul_comm hi (2 ^ l), Nat.mul_add_mod, Nat.mod_eq_of_lt hmid]

theorem make_adrp_ok_decode (off : Int) (reg : GPReg) (hlo : -ADRP_IMM_MAX ≤ off)
    (hhi : off ≤ ADRP_IMM_MAX) :
    ∃ inst, make_adrp off reg = Except.ok inst ∧ decode_adrp_imm inst = off := by
  have hmax : ADRP_IMM_MAX = 2 ^ 20 - 1 := by decide
  rw [make_adrp, if_neg (by omega)]
  refine ⟨_, rfl, ?_⟩
  have hu0 : (0 : Int) ≤ off % 2 ^ 32 := Int.emod_nonneg off (by norm_num)
  have hu1 : off % 2 ^ 32 < 2 ^ 32 := Int.emod_lt_of_pos off (by norm_num)
  obtain ⟨u, hudef⟩ : ∃ u, (off % 2 ^ 32).toNat = u := ⟨_, rfl⟩
  have hucast : ((u : Nat) : Int) = off % 2 ^ 32 := by
    rw [← hudef]
    exact Int.toNat_of_nonneg hu0
  rw [hudef]
  have hrv : reg.val < 16 := reg.isLt
  have hea : bit_extract u 0 2 = u % 4 := by
    rw [bit_extract_eq_div_mod]
    norm_num
  have heb : bit_extract u 2 19 = u / 4 % 524288 := by
    rw [bit_extract_eq_div_mod]
    norm_num
  have hadd := adrp_encode_additive (u % 4) (u / 4 % 524288) reg.val
    (by omega) (by omega) (by omega)
  rw [hea, heb, hadd, decode_adrp_imm]
  have e29 : bit_extract (0x90000000 + u % 4 * 2 ^ 29 + u / 4 % 524288 * 2 ^ 5 +
      reg.val) 29 2 = u % 4 := by
    rw [show 0x90000000 + u % 4 * 2 ^ 29 + u / 4 % 524288 * 2 ^ 5 + reg.val =
      1 * 2 ^ (29 + 2) + u % 4 * 2 ^ 29 +
        (2 ^ 28 + u / 4 % 524288 * 2 ^ 5 + reg.val) by omega]
    exact extract_mid _ _ _ 29 2 (by omega) (by omega)
  have e5 : bit_extract (0x90000000 + u % 4 * 2 ^ 29 + u / 4 % 524288 * 2 ^ 5 +
      reg.val) 5 19 = u / 4 % 524288 := by
    rw [show 0x90000000 + u % 4 * 2 ^ 29 + u / 4 % 524288 * 2 ^ 5 + reg.val =
      (2 ^ 7 + 2 ^ 4 + u % 4 * 2 ^ 5) * 2 ^ (5 + 19) +
        u / 4 % 524288 * 2 ^ 5 + reg.val by omega]
    exact extract_mid _ _ _ 5 19 (by omega) (by omega)
  rw [e29, e5, lor_shiftLeft_add (u / 4 % 524288) 2 (u % 4) (by omega)]
  have hkey : u / 4 % 524288 * 2 ^ 2 + u % 4 = u % 2097152 := by omega
  rw [hkey]
  have hcast : ((u % 2097152 : Nat) : Int) = (off % 2 ^ 32) % 2097152 := by
    push_cast
    rw [hucast]
    norm_num
  split_ifs with hm
  · omega
  · omega

theorem make_add_ok_imm12 (imm : Nat) (reg : GPReg) (him : imm < 2 ^ 12) :
    ∃ inst, make_add imm true reg reg 0 = Except.ok inst ∧ add_imm12 inst = imm := by
  have h0 : bit_extract imm 12 4 = 0 := by
    rw [bit_extract_eq_div_mod]
    omega
  rw [make_add, if_neg (by simp [h0])]
  refine ⟨_, rfl, ?_⟩
  show bit_extract (ADD_INST ||| (1 <<< 31) ||| (0 <<< 22) ||| (imm <<< 10) |||
    (reg.val <<< 5) ||| reg.val) 10 12 = imm
  have hr : reg.val < 16 := reg.isLt
  rw [add_encode_additive imm reg.val reg.val him (by omega) (by omega)]
  rw [show 2 ^ 31 + (2 ^ 28 + (2 ^ 24 + (imm * 2 ^ 10 + (reg.val * 2 ^ 5 + reg.val)))) =
    (2 ^ 9 + 2 ^ 6 + 2 ^ 2) * 2 ^ (10 + 12) + imm * 2 ^ 10 +
      (reg.val * 2 ^ 5 + reg.val) by omega]
  exact extract_mid _ _ _ 10 12 him (by omega)

theorem except_bind_error {α β : Type} (e : Err) (k : α → Except Err β) :
    ((Except.error e : Except Err α) >>= k) = Except.error e := rfl

/-- Header with a single mapping, for the C8 witness. -/
def oneMappingHeader : DyldCacheHeader :=
  ⟨[⟨0x1000, 0x100, 0⟩], [], 0, 0, ⟨0, 0, []⟩, [], zeroUUID⟩

/-- Header with no mappings, for the C8 counterexample (the range check
fires before any address is resolved). -/
def emptyHeader : DyldCacheHeader :=
  ⟨[], [], 0, 0, ⟨0, 0, []⟩, [], zeroUUID⟩

/-- C8 counterexample: the pair A = 0, T = 2^32 satisfies the claim's
bound |T − A| ≤ 2^32, yet write_adrp_add raises InvalidOperand ("target
too far away") instead of staging a reconstructing pair: the page delta
2^32 exceeds the representable maximum (2^20 − 1) pages. -/
theorem C8_within_2pow32_but_raises_counterexample :
    (2 ^ 32 - 0 : Nat) ≤ 2 ^ 32 ∧
    write_adrp_add_incr Patcher.init "C" emptyHeader 0 (2 ^ 32) 0 =
      Except.error Err.invalidOperand := by
  exact ⟨by norm_num, rfl⟩

/-- C8 as amended: when the page delta between T and A is at most
(2^20 − 1) pages (0xFFFFF000 bytes) in absolute value and both
instruction addresses resolve, write_adrp_add stages an ADRP at A and an
ADD at A+4 whose combined ARM64 semantics — (A cleared of its low 12
bits) plus the signed page offset times 0x1000, plus the ADD's 12-bit
immediate — reconstruct exactly T; when the page delta exceeds that
range the call raises InvalidOperand and stages nothing. -/
theorem C8_write_adrp_add_reconstructs (p : Patcher) (path : String)
    (header : DyldCacheHeader) (address target : Nat) (reg : GPReg) (o1 o2 : Nat)
    (h1 : header.vm_addr_to_file_off address = Except.ok o1)
    (h2 : header.vm_addr_to_file_off (address + 4) = Except.ok o2) :
    ((target - target % 0x1000 ≤ address - address % 0x1000 + 0xFFFFF000 ∧
      address - address % 0x1000 ≤ target - target % 0x1000 + 0xFFFFF000) →
      ∃ adrp add : Nat,
        write_adrp_add_incr p path header address target reg =
          Except.ok ((p.write path o1 (u32_to_bytes adrp)).write path o2
            (u32_to_bytes add), address + 4 + 4) ∧
        adrp_target address adrp + (add_imm12 add : Int) = (target : Int)) ∧
    ((address - address % 0x1000 + 0xFFFFF000 < target - target % 0x1000 ∨
      target - target % 0x1000 + 0xFFFFF000 < address - address % 0x1000) →
      write_adrp_add_incr p path header address target reg =
        Except.error Err.invalidOperand) := by
  have hADRPMAX : ADRP_MAX = 0xFFFFF000 := by decide
  have hIMMMAX : ADRP_IMM_MAX = 2 ^ 20 - 1 := by decide
  have hp2 : (2 : Nat) ^ 12 = 4096 := by norm_num
  constructor
  · intro hrange
    rcases Nat.lt_or_ge (address - address % 0x1000) (target - target % 0x1000) with
      hgt | hle
    · have hΔ : (target - target % 0x1000 - (address - address % 0x1000)) >>> 0xC ≤
          2 ^ 20 - 1 := by
        rw [Nat.shiftRight_eq_div_pow, hp2]
        have := hrange.1
        omega
      obtain ⟨adrp, hmk, hdec⟩ := make_adrp_ok_decode
        (Int.ofNat ((target - target % 0x1000 - (address - address % 0x1000)) >>> 0xC))
        reg (by rw [hIMMMAX, Int.ofNat_eq_coe]; omega) (by rw [hIMMMAX, Int.ofNat_eq_coe]; omega)
      obtain ⟨add, hmka, himm⟩ := make_add_ok_imm12 (target % 0x1000) reg (by omega)
      refine ⟨adrp, add, ?_, ?_⟩
      · simp only [write_adrp_add_incr]
        rw [if_pos hgt, if_neg (by omega), hmk, except_bind_ok]
        simp only [write_inst_incr, write_inst]
        rw [h1, except_bind_ok, except_bind_ok, except_bind_ok, hmka, except_bind_ok,
          h2, except_bind_ok, except_bind_ok]
      · rw [adrp_target, hdec, himm, Int.ofNat_eq_coe, Nat.shiftRight_eq_div_pow, hp2]
        omega
    · have hΔ : (address - address % 0x1000 - (target - target % 0x1000)) >>> 0xC ≤
          2 ^ 20 - 1 := by
        rw [Nat.shiftRight_eq_div_pow, hp2]
        have := hrange.2
        omega
      obtain ⟨adrp, hmk, hdec⟩ := make_adrp_ok_decode
        (-(Int.ofNat ((address - address % 0x1000 - (target - target % 0x1000)) >>> 0xC)))
        reg (by rw [hIMMMAX, Int.ofNat_eq_coe]; omega) (by rw [hIMMMAX, Int.ofNat_eq_coe]; omega)
      obtain ⟨add, hmka, himm⟩ := make_add_ok_imm12 (target % 0x1000) reg (by omega)
      refine ⟨adrp, add, ?_, ?_⟩
      · simp only [write_adrp_add_incr]
        rw [if_neg (by omega), if_neg (by omega), hmk, except_bind_ok]
        simp only [write_inst_incr, write_inst]
        rw [h1, except_bind_ok, except_bind_ok, except_bind_ok, hmka, except_bind_ok,
          h2, except_bind_ok, except_bind_ok]
      · rw [adrp_target, hdec, himm, Int.ofNat_eq_coe, Nat.shiftRight_eq_div_pow, hp2]
        omega
  · intro hout
    rcases hout with hbig | hbig
    · simp only [write_adrp_add_incr]
      rw [if_pos (by omega), if_pos (by omega), except_bind_error]
    · simp only [write_adrp_add_incr]
      rw [if_neg (by omega), if_pos (by omega), except_bind_error]

/-! ## find_bl: scanning for BL instructions (C10)

The istream is a byte list plus an explicit position; find_bl seeks to
the file offset of start_addr and reads one u32 per iteration, seeking
back eight bytes after each read in reverse mode. -/

/-- Embedding of Assembler::disas_bl: extract the 26-bit immediate,
sign-extend at bit 25 within 32 bits, multiply by 4 as a signed 32-bit
value (never overflowing, as the extended value fits 26 bits), and add
it to the instruction address with unsigned 64-bit wraparound. -/
def disas_bl (inst_addr inst : Nat) : Nat :=
  let u := sign_extend 32 (bit_extract inst 0 26) 25
  let s : Int := if u < 2 ^ 31 then (u : Int) else (u : Int) - 2 ^ 32
  let s4 : Int := s * 4
  if s4 < 0 then (inst_addr + 2 ^ 64 - (-s4).toNat % 2 ^ 64) % 2 ^ 64
  else (inst_addr + s4.toNat) % 2 ^ 64

/-- The loop of Assembler::find_bl: fuel is the remaining iteration
count (inst_limit − i), i the current index, pos the stream position.
Running out of fuel is the loop exiting and throwing out_of_range; a
read past the end or a reverse seek below position zero also throws. -/
def find_bl_go (d : Bytes) (start_addr target_addr : Nat) (rev : Bool) :
    Nat → Nat → Nat → Except Err Nat
  | 0, _, _ => Except.error Err.outOfRange
  | fuel + 1, i, pos => do
    let inst_addr := if rev then (start_addr + 2 ^ 64 - 4 * i % 2 ^ 64) % 2 ^ 64
      else (start_addr + 4 * i) % 2 ^ 64
    let (inst, pos1) ← read_u32_le d pos
    let pos2 ← if rev then
        (if 8 ≤ pos1 then Except.ok (pos1 - 8) else Except.error Err.outOfRange)
      else Except.ok pos1
    if inst &&& BL_INST_MASK = BL_INST then
      if target_addr = 0xFFFFFFFFFFFFFFFF ∨ disas_bl inst_addr inst = target_addr then
        Except.ok inst_addr
      else find_bl_go d start_addr target_addr rev fuel (i + 1) pos2
    else find_bl_go d start_addr target_addr rev fuel (i + 1) pos2

/-- Embedding of Assembler::find_bl: resolve start_addr to a file
offset, seek there, and scan. -/
def find_bl (d : Bytes) (header : DyldCacheHeader) (start_addr target_addr : Nat)
    (rev : Bool) (inst_limit : Nat) : Except Err Nat :=
  header.vm_addr_to_file_off start_addr >>= fun base =>
    find_bl_go d start_addr target_addr rev inst_limit 0 base

/-- Spec-side scan for C10, written from the claim's words: return the
address of the first instruction in scan order whose bits match the BL
mask/value, with no branch-target comparison at all. -/
def find_first_bl_spec (d : Bytes) (start_addr : Nat) (rev : Bool) :
    Nat → Nat → Nat → Except Err Nat
  | 0, _, _ => Except.error Err.outOfRange
  | fuel + 1, i, pos => do
    let inst_addr := if rev then (start_addr + 2 ^ 64 - 4 * i % 2 ^ 64) % 2 ^ 64
      else (start_addr + 4 * i) % 2 ^ 64
    let (inst, pos1) ← read_u32_le d pos
    let pos2 ← if rev then
        (if 8 ≤ pos1 then Except.ok (pos1 - 8) else Except.error Err.outOfRange)
      else Except.ok pos1
    if inst &&& BL_INST_MASK = BL_INST then Except.ok inst_addr
    else find_first_bl_spec d start_addr rev fuel (i + 1) pos2

theorem find_bl_go_sentinel (d : Bytes) (start_addr : Nat) (rev : Bool) :
    ∀ fuel i pos, find_bl_go d start_addr 0xFFFFFFFFFFFFFFFF rev fuel i pos =
      find_first_bl_spec d start_addr rev fuel i pos := by
  intro fuel
  induction fuel with
  | zero => intro i pos; rfl
  | succ n ih =>
    intro i pos
    rw [find_bl_go, find_first_bl_spec]
    cases hread : read_u32_le d pos with
    | error e => rw [except_bind_error, except_bind_error]
    | ok v =>
      obtain ⟨inst, pos1⟩ := v
      cases rev with
      | false =>
        simp only [except_bind_ok, Bool.false_eq_true, if_false]
        by_cases hm : inst &&& BL_INST_MASK = BL_INST
        · rw [if_pos hm, if_pos hm, if_pos (Or.inl trivial)]
        · rw [if_neg hm, if_neg hm]
          exact ih (i + 1) pos1
      | true =>
        simp only [except_bind_ok, eq_self_iff_true, if_true]
        by_cases h8 : 8 ≤ pos1
        · rw [if_pos h8, except_bind_ok, except_bind_ok]
          by_cases hm : inst &&& BL_INST_MASK = BL_INST
          · rw [if_pos hm, if_pos hm, if_pos (Or.inl trivial)]
          · rw [if_neg hm, if_neg hm]
            exact ih (i + 1) (pos1 - 8)
        · rw [if_neg h8, except_bind_error, except_bind_error]

/-- C10: with target_addr = 0xFFFFFFFFFFFFFFFF (the default argument)
find_bl never compares branch targets: it behaves exactly as the
mask-only scan that returns the first instruction matching the BL
mask/value — so a BL whose decoded target really is 2^64 − 1 cannot be
selected by target through this interface. -/
theorem C10_sentinel_first_bl (d : Bytes) (header : DyldCacheHeader)
    (start_addr : Nat) (rev : Bool) (inst_limit : Nat) :
    find_bl d header start_addr 0xFFFFFFFFFFFFFFFF rev inst_limit =
      header.vm_addr_to_file_off start_addr >>= fun base =>
        find_first_bl_spec d start_addr rev inst_limit 0 base := by
  rw [find_bl]
  cases hbase : header.vm_addr_to_file_off start_addr with
  | error e => rw [except_bind_error, except_bind_error]
  | ok base =>
    rw [except_bind_ok, except_bind_ok]
    exact find_bl_go_sentinel d start_addr rev inst_limit 0 base

/-- Witness for C8 at A = 0x1000, T = 0x3010 (two pages up, low twelve
bits 0x10) over a header mapping those addresses to file offsets 0 and 4. -/
theorem C8_write_adrp_add_reconstructs_witness :
    ∃ adrp add : Nat,
      write_adrp_add_incr Patcher.init "C" oneMappingHeader 0x1000 0x3010 0 =
        Except.ok ((Patcher.init.write "C" 0 (u32_to_bytes adrp)).write "C" 4
          (u32_to_bytes add), 0x1000 + 4 + 4) ∧
      adrp_target 0x1000 adrp + (add_imm12 add : Int) = (0x3010 : Int) :=
  (C8_write_adrp_add_reconstructs Patcher.init "C" oneMappingHeader 0x1000 0x3010 0 0 4
    rfl rfl).1 (by norm_num)

end Inferno
